import Mathlib

/-! Charset resolution and decoding (`charsets.go`).

A shallow embedding of `ConvertToUTF8String` and `charsetFromHTMLString`
together with the two package-level tables they consult.

Conventions of the embedding:

* a Go `string` used as a charset label or as HTML text is a `String`
  (a sequence of code points, i.e. well-formed UTF-8 text);
* a `[]byte` buffer, and the text obtained from it by `string(bytes)`, is a
  `List Byte`;
* a Go result `(string, error)` is a pair whose second component is
  `none` for a `nil` error;
* the decoders of `golang.org/x/text` and the non-ASCII part of the Unicode
  case tables are library data that the package does not define; functions
  take them as parameters.
-/

namespace Enmime

/-- One octet of a byte buffer. -/
abbrev Byte := Fin 256

/-- Byte order argument of `unicode.UTF16`. -/
inductive Endianness
  | BigEndian
  | LittleEndian
  deriving DecidableEq, Repr

/-- BOM policy argument of `unicode.UTF16`. -/
inductive BOMPolicy
  | IgnoreBOM
  | UseBOM
  | ExpectBOM
  deriving DecidableEq, Repr

/-- The `encoding.Encoding` values of `golang.org/x/text` that the
descriptor table refers to, by their library names. -/
inductive Encoding
  | Nop
  | Replacement
  | CodePage850
  | CodePage866
  | ISO8859_2
  | ISO8859_3
  | ISO8859_4
  | ISO8859_5
  | ISO8859_6
  | ISO8859_7
  | ISO8859_8
  | ISO8859_10
  | ISO8859_13
  | ISO8859_14
  | ISO8859_15
  | ISO8859_16
  | KOI8R
  | KOI8U
  | Macintosh
  | MacintoshCyrillic
  | Windows874
  | Windows1250
  | Windows1251
  | Windows1252
  | Windows1253
  | Windows1254
  | Windows1255
  | Windows1256
  | Windows1257
  | Windows1258
  | XUserDefined
  | GBK
  | GB18030
  | HZGB2312
  | Big5
  | EUCJP
  | ISO2022JP
  | ShiftJIS
  | EUCKR
  | UTF16 (endianness : Endianness) (bom : BOMPolicy)
  deriving DecidableEq, Repr

/-- The anonymous struct stored in `encodings`: an encoding and its name. -/
structure Descriptor where
  e : Encoding
  name : String
  deriving DecidableEq, Repr

/-- A Go `error` value as this package produces or forwards it: either an
error built from a message (`fmt.Errorf`, `errors.New`), or the error that
`ioutil.ReadAll` reported while draining the transform reader. -/
inductive GoError
  | message (msg : String)
  | transform (cause : String)
  deriving DecidableEq, Repr

/-- The map `encodings` (copied in the source from
`golang.org/x/net/html/charset/table.go`), as an association list in source
order. -/
def encodings : List (String × Descriptor) := [
  ("utf-8", ⟨.Nop, "utf-8"⟩),
  ("ibm866", ⟨.CodePage866, "ibm866"⟩),
  ("iso-8859-2", ⟨.ISO8859_2, "iso-8859-2"⟩),
  ("iso-8859-3", ⟨.ISO8859_3, "iso-8859-3"⟩),
  ("iso-8859-4", ⟨.ISO8859_4, "iso-8859-4"⟩),
  ("iso-8859-5", ⟨.ISO8859_5, "iso-8859-5"⟩),
  ("iso-8859-6", ⟨.ISO8859_6, "iso-8859-6"⟩),
  ("iso-8859-7", ⟨.ISO8859_7, "iso-8859-7"⟩),
  ("iso-8859-8", ⟨.ISO8859_8, "iso-8859-8"⟩),
  ("iso-8859-8-i", ⟨.ISO8859_8, "iso-8859-8-i"⟩),
  ("iso-8859-10", ⟨.ISO8859_10, "iso-8859-10"⟩),
  ("iso-8859-13", ⟨.ISO8859_13, "iso-8859-13"⟩),
  ("iso-8859-14", ⟨.ISO8859_14, "iso-8859-14"⟩),
  ("iso-8859-15", ⟨.ISO8859_15, "iso-8859-15"⟩),
  ("iso-8859-16", ⟨.ISO8859_16, "iso-8859-16"⟩),
  ("koi8-r", ⟨.KOI8R, "koi8-r"⟩),
  ("koi8-u", ⟨.KOI8U, "koi8-u"⟩),
  ("macintosh", ⟨.Macintosh, "macintosh"⟩),
  ("windows-874", ⟨.Windows874, "windows-874"⟩),
  ("windows-1250", ⟨.Windows1250, "windows-1250"⟩),
  ("windows-1251", ⟨.Windows1251, "windows-1251"⟩),
  ("windows-1252", ⟨.Windows1252, "windows-1252"⟩),
  ("windows-1253", ⟨.Windows1253, "windows-1253"⟩),
  ("windows-1254", ⟨.Windows1254, "windows-1254"⟩),
  ("windows-1255", ⟨.Windows1255, "windows-1255"⟩),
  ("windows-1256", ⟨.Windows1256, "windows-1256"⟩),
  ("windows-1257", ⟨.Windows1257, "windows-1257"⟩),
  ("windows-1258", ⟨.Windows1258, "windows-1258"⟩),
  ("x-mac-cyrillic", ⟨.MacintoshCyrillic, "x-mac-cyrillic"⟩),
  ("gbk", ⟨.GBK, "gbk"⟩),
  ("gb18030", ⟨.GB18030, "gb18030"⟩),
  ("hz-gb-2312", ⟨.HZGB2312, "hz-gb-2312"⟩),
  ("big5", ⟨.Big5, "big5"⟩),
  ("euc-jp", ⟨.EUCJP, "euc-jp"⟩),
  ("iso-2022-jp", ⟨.ISO2022JP, "iso-2022-jp"⟩),
  ("shift_jis", ⟨.ShiftJIS, "shift_jis"⟩),
  ("euc-kr", ⟨.EUCKR, "euc-kr"⟩),
  ("replacement", ⟨.Replacement, "replacement"⟩),
  ("utf-16be", ⟨.UTF16 .BigEndian .IgnoreBOM, "utf-16be"⟩),
  ("utf-16le", ⟨.UTF16 .LittleEndian .IgnoreBOM, "utf-16le"⟩),
  ("x-user-defined", ⟨.XUserDefined, "x-user-defined"⟩),
  ("cp850", ⟨.CodePage850, "cp850"⟩)
]

/-- The map `encodingAliases`, as an association list in source order. -/
def encodingAliases : List (String × String) := [
  ("unicode-1-1-utf-8", "utf-8"),
  ("utf-8", "utf-8"),
  ("utf8", "utf-8"),
  ("866", "ibm866"),
  ("cp866", "ibm866"),
  ("csibm866", "ibm866"),
  ("ibm866", "ibm866"),
  ("csisolatin2", "iso-8859-2"),
  ("iso-8859-2", "iso-8859-2"),
  ("iso-ir-101", "iso-8859-2"),
  ("iso8859-2", "iso-8859-2"),
  ("iso88592", "iso-8859-2"),
  ("iso_8859-2", "iso-8859-2"),
  ("iso_8859-2:1987", "iso-8859-2"),
  ("l2", "iso-8859-2"),
  ("latin2", "iso-8859-2"),
  ("8859-2", "iso-8859-2"),
  ("csisolatin3", "iso-8859-3"),
  ("iso-8859-3", "iso-8859-3"),
  ("iso-ir-109", "iso-8859-3"),
  ("iso8859-3", "iso-8859-3"),
  ("iso88593", "iso-8859-3"),
  ("iso_8859-3", "iso-8859-3"),
  ("iso_8859-3:1988", "iso-8859-3"),
  ("l3", "iso-8859-3"),
  ("latin3", "iso-8859-3"),
  ("8859-3", "iso-8859-3"),
  ("csisolatin4", "iso-8859-4"),
  ("iso-8859-4", "iso-8859-4"),
  ("iso-ir-110", "iso-8859-4"),
  ("iso8859-4", "iso-8859-4"),
  ("iso88594", "iso-8859-4"),
  ("iso_8859-4", "iso-8859-4"),
  ("iso_8859-4:1988", "iso-8859-4"),
  ("l4", "iso-8859-4"),
  ("latin4", "iso-8859-4"),
  ("8859-4", "iso-8859-4"),
  ("csisolatincyrillic", "iso-8859-5"),
  ("cyrillic", "iso-8859-5"),
  ("iso-8859-5", "iso-8859-5"),
  ("iso-ir-144", "iso-8859-5"),
  ("iso8859-5", "iso-8859-5"),
  ("iso88595", "iso-8859-5"),
  ("iso_8859-5", "iso-8859-5"),
  ("iso_8859-5:1988", "iso-8859-5"),
  ("8859-5", "iso-8859-5"),
  ("arabic", "iso-8859-6"),
  ("asmo-708", "iso-8859-6"),
  ("csiso88596e", "iso-8859-6"),
  ("csiso88596i", "iso-8859-6"),
  ("csisolatinarabic", "iso-8859-6"),
  ("ecma-114", "iso-8859-6"),
  ("iso-8859-6", "iso-8859-6"),
  ("iso-8859-6-e", "iso-8859-6"),
  ("iso-8859-6-i", "iso-8859-6"),
  ("iso-ir-127", "iso-8859-6"),
  ("iso8859-6", "iso-8859-6"),
  ("iso88596", "iso-8859-6"),
  ("iso_8859-6", "iso-8859-6"),
  ("iso_8859-6:1987", "iso-8859-6"),
  ("8859-6", "iso-8859-6"),
  ("csisolatingreek", "iso-8859-7"),
  ("ecma-118", "iso-8859-7"),
  ("elot_928", "iso-8859-7"),
  ("greek", "iso-8859-7"),
  ("greek8", "iso-8859-7"),
  ("iso-8859-7", "iso-8859-7"),
  ("iso-ir-126", "iso-8859-7"),
  ("iso8859-7", "iso-8859-7"),
  ("iso88597", "iso-8859-7"),
  ("iso_8859-7", "iso-8859-7"),
  ("iso_8859-7:1987", "iso-8859-7"),
  ("sun_eu_greek", "iso-8859-7"),
  ("8859-7", "iso-8859-7"),
  ("csiso88598e", "iso-8859-8"),
  ("csisolatinhebrew", "iso-8859-8"),
  ("hebrew", "iso-8859-8"),
  ("iso-8859-8", "iso-8859-8"),
  ("iso-8859-8-e", "iso-8859-8"),
  ("iso-ir-138", "iso-8859-8"),
  ("iso8859-8", "iso-8859-8"),
  ("iso88598", "iso-8859-8"),
  ("iso_8859-8", "iso-8859-8"),
  ("iso_8859-8:1988", "iso-8859-8"),
  ("visual", "iso-8859-8"),
  ("8859-8", "iso-8859-8"),
  ("csiso88598i", "iso-8859-8-i"),
  ("iso-8859-8-i", "iso-8859-8-i"),
  ("logical", "iso-8859-8-i"),
  ("8859-8-i", "iso-8859-8-i"),
  ("csisolatin6", "iso-8859-10"),
  ("iso-8859-10", "iso-8859-10"),
  ("iso-ir-157", "iso-8859-10"),
  ("iso8859-10", "iso-8859-10"),
  ("iso885910", "iso-8859-10"),
  ("l6", "iso-8859-10"),
  ("latin6", "iso-8859-10"),
  ("8859-10", "iso-8859-10"),
  ("iso-8859-13", "iso-8859-13"),
  ("iso8859-13", "iso-8859-13"),
  ("iso885913", "iso-8859-13"),
  ("8859-13", "iso-8859-13"),
  ("iso-8859-14", "iso-8859-14"),
  ("iso8859-14", "iso-8859-14"),
  ("iso885914", "iso-8859-14"),
  ("8859-14", "iso-8859-14"),
  ("csisolatin9", "iso-8859-15"),
  ("iso-8859-15", "iso-8859-15"),
  ("iso8859-15", "iso-8859-15"),
  ("iso885915", "iso-8859-15"),
  ("iso_8859-15", "iso-8859-15"),
  ("l9", "iso-8859-15"),
  ("8859-15", "iso-8859-15"),
  ("iso-8859-16", "iso-8859-16"),
  ("8859-16", "iso-8859-16"),
  ("cskoi8r", "koi8-r"),
  ("koi", "koi8-r"),
  ("koi8", "koi8-r"),
  ("koi8-r", "koi8-r"),
  ("koi8_r", "koi8-r"),
  ("koi8-u", "koi8-u"),
  ("csmacintosh", "macintosh"),
  ("mac", "macintosh"),
  ("macintosh", "macintosh"),
  ("x-mac-roman", "macintosh"),
  ("dos-874", "windows-874"),
  ("iso-8859-11", "windows-874"),
  ("iso8859-11", "windows-874"),
  ("iso885911", "windows-874"),
  ("tis-620", "windows-874"),
  ("windows-874", "windows-874"),
  ("cp1250", "windows-1250"),
  ("windows-1250", "windows-1250"),
  ("x-cp1250", "windows-1250"),
  ("cp1251", "windows-1251"),
  ("windows-1251", "windows-1251"),
  ("x-cp1251", "windows-1251"),
  ("ansi_x3.4-1968", "windows-1252"),
  ("ascii", "windows-1252"),
  ("cp1252", "windows-1252"),
  ("cp819", "windows-1252"),
  ("csisolatin1", "windows-1252"),
  ("ibm819", "windows-1252"),
  ("iso-8859-1", "windows-1252"),
  ("iso-ir-100", "windows-1252"),
  ("iso8859-1", "windows-1252"),
  ("iso8859_1", "windows-1252"),
  ("iso88591", "windows-1252"),
  ("iso_8859-1", "windows-1252"),
  ("iso_8859-1:1987", "windows-1252"),
  ("l1", "windows-1252"),
  ("latin1", "windows-1252"),
  ("us-ascii", "windows-1252"),
  ("windows-1252", "windows-1252"),
  ("x-cp1252", "windows-1252"),
  ("iso646-us", "windows-1252"),
  ("iso: western", "windows-1252"),
  ("we8iso8859p1", "windows-1252"),
  ("8859-1", "windows-1252"),
  ("cp1253", "windows-1253"),
  ("windows-1253", "windows-1253"),
  ("x-cp1253", "windows-1253"),
  ("cp1254", "windows-1254"),
  ("csisolatin5", "windows-1254"),
  ("iso-8859-9", "windows-1254"),
  ("iso-ir-148", "windows-1254"),
  ("iso8859-9", "windows-1254"),
  ("iso88599", "windows-1254"),
  ("iso_8859-9", "windows-1254"),
  ("iso_8859-9:1989", "windows-1254"),
  ("l5", "windows-1254"),
  ("latin5", "windows-1254"),
  ("windows-1254", "windows-1254"),
  ("x-cp1254", "windows-1254"),
  ("cp1255", "windows-1255"),
  ("windows-1255", "windows-1255"),
  ("x-cp1255", "windows-1255"),
  ("cp1256", "windows-1256"),
  ("windows-1256", "windows-1256"),
  ("x-cp1256", "windows-1256"),
  ("cp1257", "windows-1257"),
  ("windows-1257", "windows-1257"),
  ("x-cp1257", "windows-1257"),
  ("cp1258", "windows-1258"),
  ("windows-1258", "windows-1258"),
  ("x-cp1258", "windows-1258"),
  ("x-mac-cyrillic", "x-mac-cyrillic"),
  ("x-mac-ukrainian", "x-mac-cyrillic"),
  ("chinese", "gbk"),
  ("csgb2312", "gbk"),
  ("csiso58gb231280", "gbk"),
  ("gb2312", "gbk"),
  ("gb_2312", "gbk"),
  ("gb_2312-80", "gbk"),
  ("gbk", "gbk"),
  ("iso-ir-58", "gbk"),
  ("x-gbk", "gbk"),
  ("cp936", "gbk"),
  ("gb18030", "gb18030"),
  ("hz-gb-2312", "hz-gb-2312"),
  ("big5", "big5"),
  ("big5-hkscs", "big5"),
  ("cn-big5", "big5"),
  ("csbig5", "big5"),
  ("x-x-big5", "big5"),
  ("136", "big5"),
  ("cseucpkdfmtjapanese", "euc-jp"),
  ("euc-jp", "euc-jp"),
  ("x-euc-jp", "euc-jp"),
  ("csiso2022jp", "iso-2022-jp"),
  ("iso-2022-jp", "iso-2022-jp"),
  ("csshiftjis", "shift_jis"),
  ("ms_kanji", "shift_jis"),
  ("shift-jis", "shift_jis"),
  ("shift_jis", "shift_jis"),
  ("sjis", "shift_jis"),
  ("windows-31j", "shift_jis"),
  ("x-sjis", "shift_jis"),
  ("cp932", "shift_jis"),
  ("cseuckr", "euc-kr"),
  ("csksc56011987", "euc-kr"),
  ("euc-kr", "euc-kr"),
  ("iso-ir-149", "euc-kr"),
  ("korean", "euc-kr"),
  ("ks_c_5601-1987", "euc-kr"),
  ("ks_c_5601-1989", "euc-kr"),
  ("ksc5601", "euc-kr"),
  ("ksc_5601", "euc-kr"),
  ("windows-949", "euc-kr"),
  ("csiso2022kr", "replacement"),
  ("iso-2022-kr", "replacement"),
  ("iso-2022-cn", "replacement"),
  ("iso-2022-cn-ext", "replacement"),
  ("utf-16be", "utf-16be"),
  ("utf-16", "utf-16le"),
  ("utf-16le", "utf-16le"),
  ("x-user-defined", "x-user-defined"),
  ("cp850", "cp850"),
  ("cp-850", "cp850"),
  ("ibm850", "cp850")
]

/-- The non-ASCII part of the Unicode lower-case mapping (`unicode.To(LowerCase, r)`),
which is library data. -/
abbrev CaseTable := Char → Char

/-- Draining `transform.NewReader(bytes.NewReader(b), e.NewDecoder())` with
`ioutil.ReadAll`: the bytes read and the error, if any. As in Go, bytes may come
back together with an error. -/
abbrev Decoders := Encoding → List Byte → List Byte × Option String

/-- Go `unicode.ToLower`: ASCII capitals move by `'a' - 'A'`, other ASCII runes
stay, and every other rune goes through the case table. -/
def unicodeToLower (tbl : CaseTable) (r : Char) : Char :=
  if r.toNat ≤ 0x7F then
    if 'A'.toNat ≤ r.toNat ∧ r.toNat ≤ 'Z'.toNat then Char.ofNat (r.toNat + ('a'.toNat - 'A'.toNat))
    else r
  else tbl r

/-- Go `strings.ToLower`: every rune mapped by `unicode.ToLower`. -/
def stringsToLower (tbl : CaseTable) (s : String) : String :=
  ⟨s.data.map (unicodeToLower tbl)⟩

/-- Pieces of a rune sequence between the occurrences of `sep`. -/
def splitRunes (sep : Char) : List Char → List (List Char)
  | [] => [[]]
  | c :: cs =>
    if c = sep then [] :: splitRunes sep cs
    else
      match splitRunes sep cs with
      | [] => [[c]]
      | p :: ps => (c :: p) :: ps

/-- Go `strings.Split(s, sep)` for a separator of one ASCII character: always at
least one piece, one more than the number of separators. -/
def stringsSplit (s : String) (sep : Char) : List String :=
  (splitRunes sep s.data).map String.mk

/-- Go map index `encodingAliases[key]`: the zero value `""` on a miss. -/
def aliasIndex (key : String) : String :=
  (encodingAliases.lookup key).getD ""

/-- Go map index with the comma-ok form, `item, ok := encodings[key]`. -/
def encodingsIndex (key : String) : Option Descriptor :=
  encodings.lookup key

/-- The error built by `fmt.Errorf("Unsupport charset %s", charset)`. -/
def unsupportedCharset (charset : String) : GoError :=
  .message ("Unsupport charset " ++ charset)

/-- The tail of `ConvertToUTF8String` once `item` is chosen: the buffer is run
through the decoder of `item.e`; on a read error the output is dropped and the
error returned. -/
def decodeWith (dec : Decoders) (item : Descriptor) (textBytes : List Byte) :
    List Byte × Option GoError :=
  match dec item.e textBytes with
  | (_, some err) => ([], some (.transform err))
  | (output, none) => (output, none)

/-- The function `ConvertToUTF8String`. -/
def ConvertToUTF8String (tbl : CaseTable) (dec : Decoders) (charset : String)
    (textBytes : List Byte) : List Byte × Option GoError :=
  if aliasIndex (stringsToLower tbl charset) = "utf-8" then
    (textBytes, none)
  else
    match encodingsIndex (aliasIndex (stringsToLower tbl charset)) with
    | some item => decodeWith dec item textBytes
    | none =>
      let charsetp := stringsSplit charset '='
      if (stringsToLower tbl (charsetp.headD "") = "charset" ∧ charsetp.length > 1) ∨
          (stringsToLower tbl (charsetp.headD "") = "iso" ∧ charsetp.length > 1) then
        let charset := charsetp.getD 1 ""
        match encodingsIndex (aliasIndex (stringsToLower tbl charset)) with
        | none => ([], some (unsupportedCharset charset))
        | some item => decodeWith dec item textBytes
      else
        ([], some (unsupportedCharset charset))

/-! ## The HTML charset sniffer

`charsetFromHTMLString` compiles one regular expression and asks for its
matches. The Go `regexp` package is a library; it is modelled here by a small
instruction list for the expression and a backtracking run over it. Go documents
its matches as leftmost-first: the match starts as early as possible and is the
one a backtracking search finds first, with `*`, `+` and `?` preferring to take
more. -/

/-- One step of a compiled expression. The repeated operand of `?`, `*` and `+` is
always a single-rune test in the expression of this package, and its capture
groups are not nested. -/
inductive Inst
  | rune (p : Char → Bool)
  | quest (p : Char → Bool)
  | star (p : Char → Bool)
  | plus (p : Char → Bool)
  | capOpen (name : String)
  | capClose

/-- A compiled expression (`*regexp.Regexp`). -/
structure Regexp where
  prog : List Inst

/-- The Kelvin sign, which Unicode simple case folding puts with `k` and `K`. -/
def kelvinSign : Char := Char.ofNat 0x212A

/-- The long s, which Unicode simple case folding puts with `s` and `S`. -/
def longS : Char := Char.ofNat 0x17F

/-- A literal ASCII rune `c` under the flag `(?i)`: it matches the runes of the
simple-folding orbit of `c`. -/
def litFold (c r : Char) : Bool :=
  r == c || r == c.toUpper || r == c.toLower ||
    (c.toLower == 'k' && r == kelvinSign) || (c.toLower == 's' && r == longS)

/-- The expression `.` without the flag `s`: any rune but a line feed. -/
def anyNotNL (r : Char) : Bool :=
  r != '\n'

/-- The Perl class `\s` of RE2: tab, line feed, form feed, carriage return, space. -/
def perlSpace (r : Char) : Bool :=
  r == '\t' || r == '\n' || r == Char.ofNat 0x0C || r == '\r' || r == ' '

/-- The bracket class `[a-zA-Z0-9_.:-]` under `(?i)`: the listed ranges and
runes, closed under simple case folding. -/
def charsetClass (r : Char) : Bool :=
  (decide ('a' ≤ r) && decide (r ≤ 'z')) || (decide ('A' ≤ r) && decide (r ≤ 'Z')) ||
    (decide ('0' ≤ r) && decide (r ≤ '9')) ||
    r == '_' || r == '.' || r == ':' || r == '-' || r == kelvinSign || r == longS

/-- The expression text passed to `regexp.Compile`. -/
def charsetExpr : String :=
  "(?i)<meta.*charset=\"?\\s*(?P<charset>[a-zA-Z0-9_.:-]+)\\s*\""

/-- The instructions of the end of `charsetExpr`, `\s*(?P<charset>[a-zA-Z0-9_.:-]+)\s*"`. -/
def valueProg : List Inst :=
  [.star perlSpace,
    .capOpen "charset", .plus charsetClass, .capClose,
    .star perlSpace,
    .rune (litFold '"')]

/-- The instructions of `charset="?` and of what follows it in `charsetExpr`. -/
def attrProg : List Inst :=
  [.rune (litFold 'c'), .rune (litFold 'h'), .rune (litFold 'a'), .rune (litFold 'r'),
    .rune (litFold 's'), .rune (litFold 'e'), .rune (litFold 't'), .rune (litFold '='),
    .quest (litFold '"')] ++ valueProg

/-- The instructions of `charsetExpr`, left to right: `<meta`, `.*`, and the rest. -/
def charsetProg : List Inst :=
  [.rune (litFold '<'), .rune (litFold 'm'), .rune (litFold 'e'), .rune (litFold 't'),
    .rune (litFold 'a'),
    .star anyNotNL] ++ attrProg

/-- Go `regexp.Compile`, given on the one expression this package compiles. -/
def regexpCompile (expr : String) : Except GoError Regexp :=
  if expr = charsetExpr then .ok ⟨charsetProg⟩
  else .error (.message ("error parsing regexp: " ++ expr))

/-- Greedy repetition of a one-rune test before the continuation `k`: the longest
run is tried first and given back rune by rune. -/
def runStar {α : Type} (p : Char → Bool) (k : List Char → Option α) : List Char → Option α
  | [] => k []
  | c :: cs => if p c then (runStar p k cs).or (k (c :: cs)) else k (c :: cs)

/-- Backtracking run of an instruction list on the input `s`. `opened` holds the
input as it stood where each still open group began, `caps` the texts of the
groups closed so far. The result is the group texts and the input left after
the match. -/
def run : List Inst → List (List Char) → List String → List Char →
    Option (List String × List Char)
  | [], _, caps, s => some (caps, s)
  | .rune p :: is, opened, caps, s =>
    match s with
    | c :: cs => if p c then run is opened caps cs else none
    | [] => none
  | .quest p :: is, opened, caps, s =>
    (match s with
      | c :: cs => if p c then run is opened caps cs else none
      | [] => none).or (run is opened caps s)
  | .star p :: is, opened, caps, s => runStar p (run is opened caps) s
  | .plus p :: is, opened, caps, s =>
    match s with
    | c :: cs => if p c then runStar p (run is opened caps) cs else none
    | [] => none
  | .capOpen _ :: is, opened, caps, s => run is (s :: opened) caps s
  | .capClose :: is, opened, caps, s =>
    match opened with
    | t :: rest => run is rest (caps ++ [⟨t.take (t.length - s.length)⟩]) s
    | [] => run is [] caps s

/-- One match: the text of the whole match followed by the group texts, how many
runes lie between the search position and the match, the width of the match in
runes, and the input after it. -/
structure Submatch where
  groups : List String
  start : Nat
  width : Nat
  rest : List Char

/-- The leftmost match at or after the current position (`doExecute`). -/
def execute (re : Regexp) : List Char → Option Submatch
  | [] =>
    match run re.prog [] [] [] with
    | some (caps, rest) => some ⟨"" :: caps, 0, 0, rest⟩
    | none => none
  | c :: cs =>
    match run re.prog [] [] (c :: cs) with
    | some (caps, rest) =>
      some ⟨⟨(c :: cs).take ((c :: cs).length - rest.length)⟩ :: caps, 0,
        (c :: cs).length - rest.length, rest⟩
    | none =>
      match execute re cs with
      | some m => some { m with start := m.start + 1 }
      | none => none

/-- The loop of `allMatches`: at most `n` matches are delivered, each searched
from the end of the one before. A match that is empty and lies at the search
position is dropped when that position is the end of the previous match
(`adjacent`), and the search then moves on by one rune. Every round moves the
search position forward, which `fuel` counts. -/
def allMatches (re : Regexp) : Nat → Nat → List Char → Bool → List (List String)
  | 0, _, _, _ => []
  | fuel + 1, n, s, adjacent =>
    if n = 0 then []
    else
      match execute re s with
      | none => []
      | some m =>
        if m.start = 0 ∧ m.width = 0 then
          let later := fun (k : Nat) =>
            match s with
            | [] => []
            | _ :: rest => allMatches re fuel k rest false
          if adjacent then later n else m.groups :: later (n - 1)
        else m.groups :: allMatches re fuel (n - 1) m.rest true

/-- Go `(*Regexp).FindAllStringSubmatch(s, n)`; a negative `n` stands for
`len(s) + 1`, which no match list reaches. -/
def FindAllStringSubmatch (re : Regexp) (s : String) (n : Int) : List (List String) :=
  allMatches re (s.data.length + 2) (if n < 0 then s.data.length + 1 else n.toNat)
    s.data false

/-- Go `(*Regexp).SubexpNames()`: the empty name of the whole match, then the
names of the groups. -/
def SubexpNames (re : Regexp) : List String :=
  "" :: re.prog.filterMap (fun i => match i with | .capOpen name => some name | _ => none)

/-- The package variable `errParsingCharset`. -/
def errParsingCharset : GoError :=
  .message "Could not find a valid charset in the HTML body"

/-- The function `charsetFromHTMLString`. The package variable `charsetRegexp` is
passed in and returned: `none` is the `nil` pointer. -/
def charsetFromHTMLString (charsetRegexp : Option Regexp) (htmlString : String) :
    (String × Option GoError) × Option Regexp :=
  let compiled : Except GoError Regexp :=
    match charsetRegexp with
    | none => regexpCompile charsetExpr
    | some re => .ok re
  match compiled with
  | .error err => (("", some err), none)
  | .ok re =>
    let charsetMatches := FindAllStringSubmatch re htmlString (-1)
    match charsetMatches with
    | r2 :: _ =>
      let n1 := SubexpNames re
      let md : List (String × String) :=
        r2.enum.foldl (fun md (p : Nat × String) => (n1.getD p.1 "", p.2) :: md) []
      (((md.lookup "charset").getD "", none), some re)
    | [] => (("", some errParsingCharset), some re)

/-! ## Vocabulary of the statements -/

/-- ASCII case variants: `caseVariant s t` holds when `s` has the runes of `t` in
order, each one either unchanged or replaced by its ASCII upper-case or
lower-case form. -/
def caseVariant : List Char → List Char → Bool
  | [], [] => true
  | c' :: s, c :: t =>
    (decide (c' = c) || decide (c' = c.toUpper) || decide (c' = c.toLower)) && caseVariant s t
  | _, _ => false

/-- The portion of a label before its first `=`; the whole label when it has none. -/
def beforeFirstEq (label : String) : String :=
  ⟨label.data.takeWhile (· != '=')⟩

/-- The text of a label after its first `=`; empty when it has none. -/
def afterFirstEq (label : String) : String :=
  ⟨(label.data.dropWhile (· != '=')).tail⟩

/-- The text between the first and the second `=` of a label (up to its end when
there is one `=` only). -/
def secondPiece (label : String) : String :=
  beforeFirstEq (afterFirstEq label)

/-- The text `s` begins with the runes of `lit`, in any letter case. -/
def foldedStart : List Char → List Char → Bool
  | [], _ => true
  | _ :: _, [] => false
  | c :: cs, r :: rs => litFold c r && foldedStart cs rs

/-- The text begins with `<meta`, in any letter case. -/
def startsMeta (s : List Char) : Bool :=
  foldedStart ['<', 'm', 'e', 't', 'a'] s

/-- Some position of the text begins with `<meta`, in any letter case. -/
def containsMeta : List Char → Bool
  | [] => false
  | c :: cs => startsMeta (c :: cs) || containsMeta cs

/-- A case table for evaluating examples: it sends the Kelvin sign and the
dotted capital I to their ASCII lower-case letters, as Unicode does, and leaves
other runes alone. -/
def sampleCaseTable : CaseTable := fun r =>
  if r = Char.ofNat 0x212A then 'k' else if r = Char.ofNat 0x130 then 'i' else r

/-- Decoders for evaluating examples: `encoding.Nop` copies its input, the
replacement encoding yields U+FFFD for a non-empty input, and every other decoder
reports an error after the first byte when it is at or above `0x80` together with
the input read so far. -/
def sampleDecoders : Decoders := fun e b =>
  match e with
  | .Nop => (b, none)
  | .Replacement => (if b = [] then [] else [0xEF, 0xBF, 0xBD], none)
  | _ => if b.all (· < 0x80) then (b, none) else (b.takeWhile (· < 0x80), some "invalid input")

/-- The runes the bracket class `[a-zA-Z0-9_.:-]` lists: ASCII letters, digits and
the four signs. -/
def asciiValueRune (r : Char) : Bool :=
  (decide ('a' ≤ r) && decide (r ≤ 'z')) || (decide ('A' ≤ r) && decide (r ≤ 'Z')) ||
    (decide ('0' ≤ r) && decide (r ≤ '9')) ||
    r == '_' || r == '.' || r == ':' || r == '-'

/-- A charset attribute of the expression, `charset="?\s*VALUE\s*"`, begins at some
position of the text that the greedy `.*` can reach: at its start, or further on
with no line feed in between. -/
def attrOnLine : List Char → Bool
  | [] => (run attrProg [] [] []).isSome
  | c :: cs => (run attrProg [] [] (c :: cs)).isSome || (c != '\n' && attrOnLine cs)

/-- No match of the expression starts in `pre` when `rest` follows it. -/
def noMatchBefore : List Char → List Char → Bool
  | [], _ => true
  | c :: cs, rest => !(run charsetProg [] [] (c :: cs ++ rest)).isSome && noMatchBefore cs rest

/-- UTF-8 encoding of the code point with number `r`. -/
def utf8Encode (r : Nat) : List Byte :=
  if r < 0x80 then [Fin.ofNat r]
  else if r < 0x800 then [Fin.ofNat (0xC0 + r / 0x40), Fin.ofNat (0x80 + r % 0x40)]
  else if r < 0x10000 then
    [Fin.ofNat (0xE0 + r / 0x1000), Fin.ofNat (0x80 + r / 0x40 % 0x40),
      Fin.ofNat (0x80 + r % 0x40)]
  else
    [Fin.ofNat (0xF0 + r / 0x40000), Fin.ofNat (0x80 + r / 0x1000 % 0x40),
      Fin.ofNat (0x80 + r / 0x40 % 0x40), Fin.ofNat (0x80 + r % 0x40)]

/-- Modelled from the spec: part of the `windows-1252` decoding transform, which is
library code outside the repository; the code points of the Windows-1252 code
page for the bytes `0x80` to `0x9F`. -/
def windows1252High : List Nat :=
  [0x20AC, 0x0081, 0x201A, 0x0192, 0x201E, 0x2026, 0x2020, 0x2021,
    0x02C6, 0x2030, 0x0160, 0x2039, 0x0152, 0x008D, 0x017D, 0x008F,
    0x0090, 0x2018, 0x2019, 0x201C, 0x201D, 0x2022, 0x2013, 0x2014,
    0x02DC, 0x2122, 0x0161, 0x203A, 0x0153, 0x009D, 0x017E, 0x0178]

/-- Modelled from the spec: part of the `windows-1252` decoding transform; the code
point of a byte in the Windows-1252 code page, which is the byte's own number
outside `0x80` to `0x9F`. -/
def windows1252Rune (x : Byte) : Nat :=
  if x.val < 0x80 ∨ 0xA0 ≤ x.val then x.val else windows1252High.getD (x.val - 0x80) 0xFFFD

/-- Modelled from the spec: the decoding transform of `windows-1252`. The package
takes it from `golang.org/x/text/encoding/charmap`, which is not part of the
repository; the spec calls it an external conversion capability that is assumed
correct and names one value, `decode(windows-1252, [0xE9])` is U+00E9. The model
is the Windows-1252 code page, byte by byte, with UTF-8 output and no failure. -/
def decodeWindows1252 (b : List Byte) : List Byte × Option String :=
  (b.flatMap (fun x => utf8Encode (windows1252Rune x)), none)

/-- Decoders whose entry for `charmap.Windows1252` is the modelled transform; the
entries of the other encodings are those of `others`. -/
def libraryDecoders (others : Decoders) : Decoders := fun e b =>
  match e with
  | .Windows1252 => decodeWindows1252 b
  | _ => others e b

/-! ## Lemmas on the library models -/

theorem splitRunes_eq (sep : Char) (l : List Char) :
    splitRunes sep l =
      l.takeWhile (· != sep) ::
        (if sep ∈ l then splitRunes sep (l.dropWhile (· != sep)).tail else []) := by
  induction l with
  | nil => simp [splitRunes]
  | cons c cs ih =>
    by_cases h : c = sep
    · subst h
      simp [splitRunes, List.takeWhile, List.dropWhile]
    · have h' : (c != sep) = true := by simpa using h
      have h'' : ¬ sep = c := fun e => h e.symm
      rw [splitRunes, if_neg h, ih]
      simp [List.takeWhile, List.dropWhile, h', h'']

theorem stringsSplit_eq (s : String) :
    stringsSplit s '=' =
      beforeFirstEq s :: (if '=' ∈ s.data then stringsSplit (afterFirstEq s) '=' else []) := by
  unfold stringsSplit beforeFirstEq afterFirstEq
  rw [splitRunes_eq]
  by_cases h : '=' ∈ s.data <;> simp [h]

theorem stringsSplit_ne_nil (s : String) : stringsSplit s '=' ≠ [] := by
  rw [stringsSplit_eq]; simp

theorem stringsSplit_head (s : String) : (stringsSplit s '=').headD "" = beforeFirstEq s := by
  rw [stringsSplit_eq]; rfl

theorem stringsSplit_length (s : String) :
    (stringsSplit s '=').length > 1 ↔ '=' ∈ s.data := by
  rw [stringsSplit_eq]
  by_cases h : '=' ∈ s.data
  · have := stringsSplit_ne_nil (afterFirstEq s)
    cases hs : stringsSplit (afterFirstEq s) '=' with
    | nil => exact absurd hs this
    | cons a t => simp [h, hs]
  · simp [h]

theorem stringsSplit_second (s : String) (h : '=' ∈ s.data) :
    (stringsSplit s '=').getD 1 "" = secondPiece s := by
  rw [stringsSplit_eq, if_pos h, stringsSplit_eq (afterFirstEq s)]
  rfl

/-! ## Facts about the two tables -/

set_option maxRecDepth 100000 in
theorem aliases_lookup_self :
    ∀ kv ∈ encodingAliases, encodingAliases.lookup kv.1 = some kv.2 := by decide!

set_option maxRecDepth 100000 in
theorem aliases_values_known :
    ∀ kv ∈ encodingAliases, (encodingsIndex kv.2).isSome = true := by decide!

set_option maxRecDepth 100000 in
theorem aliases_keys_lower_ascii :
    ∀ kv ∈ encodingAliases,
      kv.1.data.all (fun c => decide (c.toNat ≤ 0x7F) &&
        !(decide ('A'.toNat ≤ c.toNat) && decide (c.toNat ≤ 'Z'.toNat))) = true := by decide!

set_option maxRecDepth 100000 in
theorem aliases_keys_no_eq :
    ∀ kv ∈ encodingAliases, kv.1.data.all (fun c => c != '=') = true := by decide!

set_option maxRecDepth 100000 in
theorem encodings_lookup_self :
    ∀ kv ∈ encodings, encodings.lookup kv.1 = some kv.2 ∧ kv.2.name = kv.1 := by decide!

theorem encodingsIndex_empty : encodingsIndex "" = none := by decide

theorem encodingsIndex_utf8 : encodingsIndex "utf-8" = some ⟨.Nop, "utf-8"⟩ := by decide

theorem aliasIndex_of_mem {k v : String} (h : (k, v) ∈ encodingAliases) : aliasIndex k = v := by
  have := aliases_lookup_self (k, v) h
  simp only at this
  simp [aliasIndex, this]

theorem aliasIndex_of_not_key {k : String} (h : k ∉ encodingAliases.map Prod.fst) :
    aliasIndex k = "" := by
  have : encodingAliases.lookup k = none := by
    rw [List.lookup_eq_none_iff]
    intro p hp
    simp only [bne_iff_ne, ne_eq]
    intro e
    exact h (List.mem_map.mpr ⟨p, hp, e.symm⟩)
  simp [aliasIndex, this]

theorem mem_of_key {k : String} (h : k ∈ encodingAliases.map Prod.fst) :
    (k, aliasIndex k) ∈ encodingAliases := by
  obtain ⟨⟨k', v⟩, hp, rfl⟩ := List.mem_map.mp h
  rw [aliasIndex_of_mem hp]
  exact hp

theorem encodingsIndex_mem {n : String} {item : Descriptor}
    (h : encodingsIndex n = some item) : (n, item) ∈ encodings := by
  unfold encodingsIndex at h
  rw [List.lookup_eq_some_iff] at h
  obtain ⟨l₁, l₂, e, _⟩ := h
  rw [e]
  simp

/-- The descriptor lookup behind an alias lookup succeeds exactly on alias keys. -/
theorem encodingsIndex_alias_isSome (k : String) :
    (encodingsIndex (aliasIndex k)).isSome = true ↔ k ∈ encodingAliases.map Prod.fst := by
  constructor
  · intro h
    by_contra hk
    rw [aliasIndex_of_not_key hk, encodingsIndex_empty] at h
    simp at h
  · intro h
    exact aliases_values_known _ (mem_of_key h)

/-! ## Lower-casing -/

theorem unicodeToLower_ascii (tbl : CaseTable) (c : Char) (h : c.toNat ≤ 0x7F) :
    unicodeToLower tbl c = unicodeToLower id c := by
  simp [unicodeToLower, h]

theorem unicodeToLower_eq_sign (tbl : CaseTable) : unicodeToLower tbl '=' = '=' := by
  rw [unicodeToLower_ascii tbl '=' (by decide)]; decide

theorem ascii_cases (P : Char → Prop) (h : ∀ n : Fin 128, P (Char.ofNat n)) (c : Char)
    (hc : c.toNat ≤ 0x7F) : P c := by
  have := h ⟨c.toNat, by omega⟩
  simpa using this

set_option maxRecDepth 100000 in
theorem lower_variant_fin :
    ∀ n : Fin 128,
      ¬ ('A'.toNat ≤ (Char.ofNat n).toNat ∧ (Char.ofNat n).toNat ≤ 'Z'.toNat) →
        ∀ c' ∈ [Char.ofNat n, (Char.ofNat n).toUpper, (Char.ofNat n).toLower],
          c'.toNat ≤ 0x7F ∧ unicodeToLower id c' = Char.ofNat n := by decide!

/-- Lower-casing undoes an ASCII case change of a rune that is ASCII and not a
capital. -/
theorem unicodeToLower_variant (tbl : CaseTable) (c c' : Char) (hc : c.toNat ≤ 0x7F)
    (hu : ¬ ('A'.toNat ≤ c.toNat ∧ c.toNat ≤ 'Z'.toNat))
    (hv : c' = c ∨ c' = c.toUpper ∨ c' = c.toLower) : unicodeToLower tbl c' = c := by
  have key := ascii_cases
    (fun c => ¬ ('A'.toNat ≤ c.toNat ∧ c.toNat ≤ 'Z'.toNat) →
      ∀ c' ∈ [c, c.toUpper, c.toLower], c'.toNat ≤ 0x7F ∧ unicodeToLower id c' = c)
    lower_variant_fin c hc hu c' (by simpa using hv)
  rw [unicodeToLower_ascii tbl c' key.1]
  exact key.2

theorem map_lower_variant (tbl : CaseTable) :
    ∀ (s t : List Char),
      t.all (fun c => decide (c.toNat ≤ 0x7F) &&
        !(decide ('A'.toNat ≤ c.toNat) && decide (c.toNat ≤ 'Z'.toNat))) = true →
      caseVariant s t = true → s.map (unicodeToLower tbl) = t
  | [], [], _, _ => rfl
  | [], _ :: _, _, h => by simp [caseVariant] at h
  | _ :: _, [], _, h => by simp [caseVariant] at h
  | c' :: s, c :: t, ht, h => by
    simp only [List.all_cons, Bool.and_eq_true, decide_eq_true_eq, Bool.not_eq_true',
      Bool.and_eq_false_imp] at ht
    simp only [caseVariant, Bool.and_eq_true, Bool.or_eq_true, decide_eq_true_eq] at h
    have hu : ¬ ('A'.toNat ≤ c.toNat ∧ c.toNat ≤ 'Z'.toNat) := by
      rintro ⟨h1, h2⟩
      have := ht.1.2 h1
      rw [decide_eq_false_iff_not] at this
      exact this h2
    have hv : c' = c ∨ c' = c.toUpper ∨ c' = c.toLower := by
      rcases h.1 with (h1 | h1) | h1
      · exact Or.inl h1
      · exact Or.inr (Or.inl h1)
      · exact Or.inr (Or.inr h1)
    rw [List.map_cons, unicodeToLower_variant tbl c c' ht.1.1 hu hv,
      map_lower_variant tbl s t (by simpa using ht.2) h.2]

/-- A case variant of an alias key lower-cases to the key. -/
theorem stringsToLower_variant (tbl : CaseTable) {a c : String} (a' : String)
    (hmem : (a, c) ∈ encodingAliases) (hv : caseVariant a'.data a.data = true) :
    stringsToLower tbl a' = a := by
  have hk := aliases_keys_lower_ascii (a, c) hmem
  unfold stringsToLower
  rw [map_lower_variant tbl _ _ hk hv]

theorem stringsToLower_data (tbl : CaseTable) (s : String) :
    (stringsToLower tbl s).data = s.data.map (unicodeToLower tbl) := rfl

/-- Lower-casing keeps every `=` in place. -/
theorem eq_mem_lower (tbl : CaseTable) (s : String) (h : '=' ∈ s.data) :
    '=' ∈ (stringsToLower tbl s).data := by
  rw [stringsToLower_data]
  exact List.mem_map.mpr ⟨'=', h, unicodeToLower_eq_sign tbl⟩

theorem not_key_of_eq_mem {k : String} (h : '=' ∈ k.data) :
    k ∉ encodingAliases.map Prod.fst := by
  intro hk
  obtain ⟨p, hp, rfl⟩ := List.mem_map.mp hk
  have := aliases_keys_no_eq p hp
  rw [List.all_eq_true] at this
  simpa using this '=' h

/-! ## The shape of `ConvertToUTF8String` -/

theorem decodeWith_nop (dec : Decoders) (h : ∀ b, dec .Nop b = (b, none)) (name : String)
    (b : List Byte) : decodeWith dec ⟨.Nop, name⟩ b = (b, none) := by
  simp [decodeWith, h]

theorem decodeWith_error (dec : Decoders) (item : Descriptor) (b : List Byte) (l : String) :
    (decodeWith dec item b).2 ≠ some (unsupportedCharset l) := by
  unfold decodeWith unsupportedCharset
  rcases dec item.e b with ⟨o, _ | e⟩ <;> simp

theorem convert_utf8 (tbl : CaseTable) (dec : Decoders) (label : String) (b : List Byte)
    (h : aliasIndex (stringsToLower tbl label) = "utf-8") :
    ConvertToUTF8String tbl dec label b = (b, none) := by
  simp [ConvertToUTF8String, h]

theorem convert_hit (tbl : CaseTable) (dec : Decoders) (label : String) (b : List Byte)
    (item : Descriptor) (hne : aliasIndex (stringsToLower tbl label) ≠ "utf-8")
    (h : encodingsIndex (aliasIndex (stringsToLower tbl label)) = some item) :
    ConvertToUTF8String tbl dec label b = decodeWith dec item b := by
  simp [ConvertToUTF8String, hne, h]

theorem convert_miss (tbl : CaseTable) (dec : Decoders) (label : String) (b : List Byte)
    (h : encodingsIndex (aliasIndex (stringsToLower tbl label)) = none) :
    ConvertToUTF8String tbl dec label b =
      if (stringsToLower tbl (beforeFirstEq label) = "charset" ∨
          stringsToLower tbl (beforeFirstEq label) = "iso") ∧ '=' ∈ label.data then
        match encodingsIndex (aliasIndex (stringsToLower tbl (secondPiece label))) with
        | none => ([], some (unsupportedCharset (secondPiece label)))
        | some item => decodeWith dec item b
      else ([], some (unsupportedCharset label)) := by
  have hne : aliasIndex (stringsToLower tbl label) ≠ "utf-8" := by
    intro e
    rw [e, encodingsIndex_utf8] at h
    exact absurd h (by simp)
  unfold ConvertToUTF8String
  rw [if_neg hne, h]
  simp only [stringsSplit_head, stringsSplit_length]
  by_cases hin : '=' ∈ label.data
  · simp only [hin, and_true, stringsSplit_second label hin]
  · simp [hin]

theorem takeWhile_ne_self (sep : Char) :
    ∀ l : List Char, sep ∉ l → l.takeWhile (· != sep) = l
  | [], _ => rfl
  | c :: cs, h => by
    have hc : (c != sep) = true := by
      simp only [bne_iff_ne, ne_eq]; intro e; exact h (by simp [e])
    rw [List.takeWhile_cons, hc]
    simp [takeWhile_ne_self sep cs (fun m => h (List.mem_cons_of_mem _ m))]

theorem takeWhile_ne_append (sep : Char) (r : List Char) :
    ∀ l : List Char, sep ∉ l → (l ++ sep :: r).takeWhile (· != sep) = l
  | [], _ => by simp [List.takeWhile]
  | c :: cs, h => by
    have hc : (c != sep) = true := by
      simp only [bne_iff_ne, ne_eq]; intro e; exact h (by simp [e])
    rw [List.cons_append, List.takeWhile_cons, hc]
    simp [takeWhile_ne_append sep r cs (fun m => h (List.mem_cons_of_mem _ m))]

theorem dropWhile_ne_append (sep : Char) (r : List Char) :
    ∀ l : List Char, sep ∉ l → (l ++ sep :: r).dropWhile (· != sep) = sep :: r
  | [], _ => by simp [List.dropWhile]
  | c :: cs, h => by
    have hc : (c != sep) = true := by
      simp only [bne_iff_ne, ne_eq]; intro e; exact h (by simp [e])
    rw [List.cons_append, List.dropWhile_cons, hc]
    simp [dropWhile_ne_append sep r cs (fun m => h (List.mem_cons_of_mem _ m))]

theorem beforeFirstEq_join (p x : String) (hp : '=' ∉ p.data) :
    beforeFirstEq (p ++ "=" ++ x) = p := by
  unfold beforeFirstEq
  have : (p ++ "=" ++ x).data = p.data ++ '=' :: x.data := by
    simp [String.data_append]
  rw [this, takeWhile_ne_append '=' x.data p.data hp]

theorem afterFirstEq_join (p x : String) (hp : '=' ∉ p.data) :
    afterFirstEq (p ++ "=" ++ x) = x := by
  unfold afterFirstEq
  have : (p ++ "=" ++ x).data = p.data ++ '=' :: x.data := by
    simp [String.data_append]
  rw [this, dropWhile_ne_append '=' x.data p.data hp]
  rfl

theorem beforeFirstEq_self (x : String) (hx : '=' ∉ x.data) : beforeFirstEq x = x := by
  unfold beforeFirstEq
  rw [takeWhile_ne_self '=' x.data hx]

theorem eq_mem_join (p x : String) : '=' ∈ (p ++ "=" ++ x).data := by
  have : (p ++ "=" ++ x).data = p.data ++ '=' :: x.data := by
    simp [String.data_append]
  rw [this]; simp

/-- A label whose lower-cased form has no `=` has none itself. -/
theorem no_eq_of_lower (tbl : CaseTable) (p : String)
    (h : '=' ∉ (stringsToLower tbl p).data) : '=' ∉ p.data :=
  fun m => h (eq_mem_lower tbl p m)

theorem unsupportedCharset_inj {l l' : String}
    (h : unsupportedCharset l = unsupportedCharset l') : l = l' := by
  unfold unsupportedCharset at h
  injection h with h
  have hd := congrArg String.data h
  rw [String.data_append, String.data_append] at hd
  exact String.ext (List.append_cancel_left hd)

theorem caseVariant_refl : ∀ l : List Char, caseVariant l l = true
  | [] => rfl
  | c :: cs => by simp [caseVariant, caseVariant_refl cs]

set_option maxRecDepth 100000 in
theorem encodings_keys_are_aliases :
    ∀ kv ∈ encodings, kv.1 ≠ "replacement" → (kv.1, kv.1) ∈ encodingAliases := by decide!

/-! ## Resolution of labels -/

/-- C1: for every alias key `a` with canonical name `c` and every ASCII case
variant `a'` of `a`, `ConvertToUTF8String` on `a'` selects the descriptor stored
under `c` (it returns the bytes unchanged when `c` is `utf-8`, and otherwise runs
the decoder of that descriptor), and its error is never an unsupported-charset
error. -/
theorem resolve_case_insensitive (tbl : CaseTable) (dec : Decoders) (a c a' : String)
    (b : List Byte) (hmem : (a, c) ∈ encodingAliases)
    (hv : caseVariant a'.data a.data = true) :
    ∃ item, encodingsIndex c = some item ∧ item.name = c ∧
      ConvertToUTF8String tbl dec a' b =
        (if c = "utf-8" then (b, none) else decodeWith dec item b) ∧
      ∀ l, (ConvertToUTF8String tbl dec a' b).2 ≠ some (unsupportedCharset l) := by
  have hl : stringsToLower tbl a' = a := stringsToLower_variant tbl a' hmem hv
  have ha : aliasIndex (stringsToLower tbl a') = c := by rw [hl]; exact aliasIndex_of_mem hmem
  obtain ⟨item, hitem⟩ := Option.isSome_iff_exists.mp (aliases_values_known (a, c) hmem)
  have hname : item.name = c := (encodings_lookup_self (c, item) (encodingsIndex_mem hitem)).2
  have hres : ConvertToUTF8String tbl dec a' b =
      (if c = "utf-8" then (b, none) else decodeWith dec item b) := by
    by_cases hc : c = "utf-8"
    · rw [if_pos hc]
      exact convert_utf8 tbl dec a' b (ha.trans hc)
    · rw [if_neg hc]
      exact convert_hit tbl dec a' b item (by rw [ha]; exact hc) (by rw [ha]; exact hitem)
  refine ⟨item, hitem, hname, hres, ?_⟩
  intro l
  rw [hres]
  by_cases hc : c = "utf-8"
  · rw [if_pos hc]; simp
  · rw [if_neg hc]; exact decodeWith_error dec item b l

set_option maxRecDepth 100000 in
/-- C1 at `"LaTiN1"`, a case variant of the key `latin1` of `windows-1252`. -/
theorem resolve_case_insensitive_witness :
    (("latin1", "windows-1252") ∈ encodingAliases ∧
      caseVariant "LaTiN1".data "latin1".data = true) ∧
    ∃ item, encodingsIndex "windows-1252" = some item ∧ item.name = "windows-1252" ∧
      ConvertToUTF8String sampleCaseTable sampleDecoders "LaTiN1" [0x41] =
        (if "windows-1252" = "utf-8" then ([0x41], none)
          else decodeWith sampleDecoders item [0x41]) ∧
      ∀ l, (ConvertToUTF8String sampleCaseTable sampleDecoders "LaTiN1" [0x41]).2 ≠
        some (unsupportedCharset l) :=
  ⟨⟨by decide, by decide⟩,
    resolve_case_insensitive sampleCaseTable sampleDecoders "latin1" "windows-1252" "LaTiN1"
      [0x41] (by decide) (by decide)⟩

/-- C2: for every label whose lower-cased form is `utf-8`, `utf8` or
`unicode-1-1-utf-8` and every byte sequence, well-formed UTF-8 or not,
`ConvertToUTF8String` returns exactly those bytes and no error. -/
theorem utf8_byte_identity (tbl : CaseTable) (dec : Decoders) (label : String)
    (b : List Byte)
    (h : stringsToLower tbl label = "utf-8" ∨ stringsToLower tbl label = "utf8" ∨
      stringsToLower tbl label = "unicode-1-1-utf-8") :
    ConvertToUTF8String tbl dec label b = (b, none) := by
  apply convert_utf8
  rcases h with h | h | h <;> rw [h] <;> decide

/-- C2 at the label `"UTF8"` and the bytes `FF FE`, which are not well-formed
UTF-8. -/
theorem utf8_byte_identity_witness :
    (stringsToLower sampleCaseTable "UTF8" = "utf-8" ∨
      stringsToLower sampleCaseTable "UTF8" = "utf8" ∨
      stringsToLower sampleCaseTable "UTF8" = "unicode-1-1-utf-8") ∧
    ConvertToUTF8String sampleCaseTable sampleDecoders "UTF8" [0xFF, 0xFE] =
      ([0xFF, 0xFE], none) :=
  ⟨by decide,
    utf8_byte_identity sampleCaseTable sampleDecoders "UTF8" [0xFF, 0xFE] (by decide)⟩

/-- C3: for every prefix `p` that lower-cases to `charset` or `iso`, every label
`x` without `=` and every byte sequence, `ConvertToUTF8String` gives the same
result on `p ++ "=" ++ x` as on `x`, provided the decoder of `encoding.Nop` is
the identity. -/
theorem salvage_equivalence (tbl : CaseTable) (dec : Decoders) (p x : String)
    (b : List Byte)
    (hp : stringsToLower tbl p = "charset" ∨ stringsToLower tbl p = "iso")
    (hx : '=' ∉ x.data) (hnop : ∀ b, dec .Nop b = (b, none)) :
    ConvertToUTF8String tbl dec (p ++ "=" ++ x) b = ConvertToUTF8String tbl dec x b := by
  have hpe : '=' ∉ p.data := by
    apply no_eq_of_lower tbl
    rcases hp with h | h <;> rw [h] <;> decide
  have hmiss : encodingsIndex (aliasIndex (stringsToLower tbl (p ++ "=" ++ x))) = none := by
    rw [aliasIndex_of_not_key (not_key_of_eq_mem (eq_mem_lower tbl _ (eq_mem_join p x)))]
    exact encodingsIndex_empty
  have hsec : secondPiece (p ++ "=" ++ x) = x := by
    unfold secondPiece
    rw [afterFirstEq_join p x hpe, beforeFirstEq_self x hx]
  rw [convert_miss tbl dec _ b hmiss, beforeFirstEq_join p x hpe, hsec,
    if_pos ⟨hp, eq_mem_join p x⟩]
  by_cases hu : aliasIndex (stringsToLower tbl x) = "utf-8"
  · rw [convert_utf8 tbl dec x b hu, hu, encodingsIndex_utf8]
    exact decodeWith_nop dec hnop _ b
  · cases hi : encodingsIndex (aliasIndex (stringsToLower tbl x)) with
    | some item => rw [convert_hit tbl dec x b item hu hi]
    | none =>
      rw [convert_miss tbl dec x b hi, if_neg (fun h => hx h.2)]

/-- C3 at `"charset=shift_jis"` against `"shift_jis"` and at `"iso=windows-1252"`
against `"windows-1252"`. -/
theorem salvage_equivalence_witness :
    ((stringsToLower sampleCaseTable "charset" = "charset" ∨
        stringsToLower sampleCaseTable "charset" = "iso") ∧
      '=' ∉ "shift_jis".data ∧ ∀ b, sampleDecoders .Nop b = (b, none)) ∧
    ConvertToUTF8String sampleCaseTable sampleDecoders ("charset" ++ "=" ++ "shift_jis")
        [0x41] =
      ConvertToUTF8String sampleCaseTable sampleDecoders "shift_jis" [0x41] ∧
    ConvertToUTF8String sampleCaseTable sampleDecoders ("iso" ++ "=" ++ "windows-1252")
        [0xE9] =
      ConvertToUTF8String sampleCaseTable sampleDecoders "windows-1252" [0xE9] :=
  ⟨⟨by decide, by decide, fun _ => rfl⟩,
    salvage_equivalence sampleCaseTable sampleDecoders "charset" "shift_jis" [0x41]
      (by decide) (by decide) (fun _ => rfl),
    salvage_equivalence sampleCaseTable sampleDecoders "iso" "windows-1252" [0xE9]
      (by decide) (by decide) (fun _ => rfl)⟩

/-- C4: for every label whose lower-cased form is not an alias key and whose
portion before the first `=` does not lower-case to `charset` or `iso`, and for
every byte sequence, `ConvertToUTF8String` returns the empty text and the
unsupported-charset error. -/
theorem fail_closed (tbl : CaseTable) (dec : Decoders) (label : String) (b : List Byte)
    (hkey : stringsToLower tbl label ∉ encodingAliases.map Prod.fst)
    (hpre : stringsToLower tbl (beforeFirstEq label) ≠ "charset" ∧
      stringsToLower tbl (beforeFirstEq label) ≠ "iso") :
    ConvertToUTF8String tbl dec label b = ([], some (unsupportedCharset label)) := by
  have hmiss : encodingsIndex (aliasIndex (stringsToLower tbl label)) = none := by
    rw [aliasIndex_of_not_key hkey]; exact encodingsIndex_empty
  rw [convert_miss tbl dec label b hmiss, if_neg]
  rintro ⟨h | h, _⟩
  · exact hpre.1 h
  · exact hpre.2 h

set_option maxRecDepth 100000 in
/-- C4 at the labels `foo=bar`, `totally-unknown-xyz`, the empty label and
`utf-8` with a leading space. -/
theorem fail_closed_witness :
    (stringsToLower sampleCaseTable "foo=bar" ∉ encodingAliases.map Prod.fst ∧
      stringsToLower sampleCaseTable (beforeFirstEq "foo=bar") ≠ "charset" ∧
      stringsToLower sampleCaseTable (beforeFirstEq "foo=bar") ≠ "iso") ∧
    ConvertToUTF8String sampleCaseTable sampleDecoders "foo=bar" [0x41] =
      ([], some (unsupportedCharset "foo=bar")) ∧
    ConvertToUTF8String sampleCaseTable sampleDecoders "totally-unknown-xyz" [0x41] =
      ([], some (unsupportedCharset "totally-unknown-xyz")) ∧
    ConvertToUTF8String sampleCaseTable sampleDecoders "" [0x41] =
      ([], some (unsupportedCharset "")) ∧
    ConvertToUTF8String sampleCaseTable sampleDecoders " utf-8" [0x41] =
      ([], some (unsupportedCharset " utf-8")) :=
  ⟨⟨by decide!, by decide, by decide⟩,
    fail_closed sampleCaseTable sampleDecoders "foo=bar" [0x41] (by decide!)
      ⟨by decide, by decide⟩,
    fail_closed sampleCaseTable sampleDecoders "totally-unknown-xyz" [0x41] (by decide!)
      ⟨by decide, by decide⟩,
    fail_closed sampleCaseTable sampleDecoders "" [0x41] (by decide!)
      ⟨by decide, by decide⟩,
    fail_closed sampleCaseTable sampleDecoders " utf-8" [0x41] (by decide!)
      ⟨by decide, by decide⟩⟩

/-- C5, as stated, fails at `"charset=foo"`: salvage is attempted and fails, and
the error names `foo`, not the label passed by the caller. -/
theorem unsupported_label_counterexample :
    ConvertToUTF8String sampleCaseTable sampleDecoders "charset=foo" [0x41] =
      ([], some (unsupportedCharset "foo")) ∧
    unsupportedCharset "foo" ≠ unsupportedCharset "charset=foo" := by
  decide

/-- C5, amended: whenever `ConvertToUTF8String` fails with an unsupported-charset
error, the label in the error is the label passed by the caller when salvage did
not apply, and the text between the first and the second `=` of that label when
salvage was attempted and failed. -/
theorem unsupported_label_reported (tbl : CaseTable) (dec : Decoders) (L l : String)
    (b : List Byte)
    (h : (ConvertToUTF8String tbl dec L b).2 = some (unsupportedCharset l)) :
    l = if (stringsToLower tbl (beforeFirstEq L) = "charset" ∨
          stringsToLower tbl (beforeFirstEq L) = "iso") ∧ '=' ∈ L.data
        then secondPiece L else L := by
  cases hi : encodingsIndex (aliasIndex (stringsToLower tbl L)) with
  | some item =>
    by_cases hu : aliasIndex (stringsToLower tbl L) = "utf-8"
    · rw [convert_utf8 tbl dec L b hu] at h
      simp at h
    · rw [convert_hit tbl dec L b item hu hi] at h
      exact absurd h (decodeWith_error dec item b l)
  | none =>
    rw [convert_miss tbl dec L b hi] at h
    split at h
    · rename_i hc
      rw [if_pos hc]
      split at h
      · simp only [Option.some.injEq] at h
        exact (unsupportedCharset_inj h).symm
      · rename_i item _
        exact absurd h (decodeWith_error dec item b l)
    · rename_i hc
      rw [if_neg hc]
      simp only [Option.some.injEq] at h
      exact (unsupportedCharset_inj h).symm

/-- C5 amended, at `"charset=foo"`, where the reported label is `foo`. -/
theorem unsupported_label_reported_witness :
    (ConvertToUTF8String sampleCaseTable sampleDecoders "charset=foo" [0x41]).2 =
      some (unsupportedCharset "foo") ∧
    "foo" = if (stringsToLower sampleCaseTable (beforeFirstEq "charset=foo") = "charset" ∨
          stringsToLower sampleCaseTable (beforeFirstEq "charset=foo") = "iso") ∧
          '=' ∈ "charset=foo".data
        then secondPiece "charset=foo" else "charset=foo" :=
  ⟨by decide,
    unsupported_label_reported sampleCaseTable sampleDecoders "charset=foo" "foo" [0x41]
      (by decide)⟩

set_option maxRecDepth 100000 in
/-- C6, as stated, fails at `"charset=utf-8=x"`: the label misses the table, its
prefix is `charset` and it has two `=`; the text after the first `=` is `utf-8=x`,
which is no alias key, and yet the call succeeds. -/
theorem salvage_value_counterexample :
    (stringsToLower sampleCaseTable "charset=utf-8=x" ∉ encodingAliases.map Prod.fst ∧
      stringsToLower sampleCaseTable (beforeFirstEq "charset=utf-8=x") = "charset" ∧
      2 ≤ "charset=utf-8=x".data.count '=') ∧
    afterFirstEq "charset=utf-8=x" = "utf-8=x" ∧
    stringsToLower sampleCaseTable (afterFirstEq "charset=utf-8=x") ∉
      encodingAliases.map Prod.fst ∧
    ConvertToUTF8String sampleCaseTable sampleDecoders "charset=utf-8=x" [0x41] =
      ([0x41], none) := by
  refine ⟨⟨by decide!, by decide, by decide⟩, by decide, by decide!, by decide⟩

/-- C6, amended: for every label that misses the alias table, whose portion before
the first `=` lower-cases to `charset` or `iso`, and that has two or more `=`,
`ConvertToUTF8String` retries with the text between the first and the second `=`
as the new label: it runs the decoder of the descriptor found for that text, or
fails with the unsupported-charset error naming that text, and a descriptor is
found exactly when the lower-cased text is an alias key. -/
theorem salvage_second_piece (tbl : CaseTable) (dec : Decoders) (label : String)
    (b : List Byte)
    (hmiss : stringsToLower tbl label ∉ encodingAliases.map Prod.fst)
    (hpre : stringsToLower tbl (beforeFirstEq label) = "charset" ∨
      stringsToLower tbl (beforeFirstEq label) = "iso")
    (hcount : 2 ≤ label.data.count '=') :
    ConvertToUTF8String tbl dec label b =
      (match encodingsIndex (aliasIndex (stringsToLower tbl (secondPiece label))) with
        | none => ([], some (unsupportedCharset (secondPiece label)))
        | some item => decodeWith dec item b) ∧
    ((encodingsIndex (aliasIndex (stringsToLower tbl (secondPiece label)))).isSome = true ↔
      stringsToLower tbl (secondPiece label) ∈ encodingAliases.map Prod.fst) := by
  have hm : encodingsIndex (aliasIndex (stringsToLower tbl label)) = none := by
    rw [aliasIndex_of_not_key hmiss]; exact encodingsIndex_empty
  have hin : '=' ∈ label.data := List.count_pos_iff.mp (by omega)
  exact ⟨by rw [convert_miss tbl dec label b hm, if_pos ⟨hpre, hin⟩],
    encodingsIndex_alias_isSome _⟩

set_option maxRecDepth 100000 in
/-- C6 amended, at `"charset=utf-8=x"`, whose second piece is `utf-8`. -/
theorem salvage_second_piece_witness :
    (stringsToLower sampleCaseTable "charset=utf-8=x" ∉ encodingAliases.map Prod.fst ∧
      (stringsToLower sampleCaseTable (beforeFirstEq "charset=utf-8=x") = "charset" ∨
        stringsToLower sampleCaseTable (beforeFirstEq "charset=utf-8=x") = "iso") ∧
      2 ≤ "charset=utf-8=x".data.count '=') ∧
    secondPiece "charset=utf-8=x" = "utf-8" ∧
    (ConvertToUTF8String sampleCaseTable sampleDecoders "charset=utf-8=x" [0x41] =
      (match encodingsIndex (aliasIndex
          (stringsToLower sampleCaseTable (secondPiece "charset=utf-8=x"))) with
        | none => ([], some (unsupportedCharset (secondPiece "charset=utf-8=x")))
        | some item => decodeWith sampleDecoders item [0x41]) ∧
    ((encodingsIndex (aliasIndex
        (stringsToLower sampleCaseTable (secondPiece "charset=utf-8=x")))).isSome = true ↔
      stringsToLower sampleCaseTable (secondPiece "charset=utf-8=x") ∈
        encodingAliases.map Prod.fst)) :=
  ⟨⟨by decide!, by decide, by decide⟩, by decide,
    salvage_second_piece sampleCaseTable sampleDecoders "charset=utf-8=x" [0x41]
      (by decide!) (by decide) (by decide)⟩

/-- C7, as stated, fails at the canonical name `replacement`: it is a key of the
descriptor table, the label `iso-2022-kr` resolves to it, and resolving the name
itself fails. -/
theorem canonical_idempotence_counterexample :
    encodingsIndex "replacement" = some ⟨.Replacement, "replacement"⟩ ∧
    aliasIndex (stringsToLower sampleCaseTable "iso-2022-kr") = "replacement" ∧
    ConvertToUTF8String sampleCaseTable sampleDecoders "replacement" [0x41] =
      ([], some (unsupportedCharset "replacement")) := by
  decide

/-- C7, amended: for every canonical name `n` that is a key of the descriptor
table, other than `replacement`, the label `n` is its own alias and
`ConvertToUTF8String` on it selects the descriptor stored under `n`, whose name is
`n` (the bytes come back unchanged when `n` is `utf-8`, and otherwise the decoder
of that descriptor runs). -/
theorem canonical_idempotence (tbl : CaseTable) (dec : Decoders) (n : String)
    (item : Descriptor) (b : List Byte) (hmem : (n, item) ∈ encodings)
    (hn : n ≠ "replacement") :
    aliasIndex (stringsToLower tbl n) = n ∧ encodingsIndex n = some item ∧ item.name = n ∧
      ConvertToUTF8String tbl dec n b =
        (if n = "utf-8" then (b, none) else decodeWith dec item b) := by
  have hal : (n, n) ∈ encodingAliases := encodings_keys_are_aliases (n, item) hmem hn
  have hl : stringsToLower tbl n = n :=
    stringsToLower_variant tbl n hal (caseVariant_refl _)
  have ha : aliasIndex (stringsToLower tbl n) = n := by rw [hl]; exact aliasIndex_of_mem hal
  have hself := encodings_lookup_self (n, item) hmem
  have hitem : encodingsIndex n = some item := hself.1
  refine ⟨ha, hitem, hself.2, ?_⟩
  by_cases hc : n = "utf-8"
  · rw [if_pos hc]
    exact convert_utf8 tbl dec n b (ha.trans hc)
  · rw [if_neg hc]
    exact convert_hit tbl dec n b item (by rw [ha]; exact hc) (by rw [ha]; exact hitem)

/-- C7 amended, at the canonical name `windows-1252`. -/
theorem canonical_idempotence_witness :
    (("windows-1252", (⟨.Windows1252, "windows-1252"⟩ : Descriptor)) ∈ encodings ∧
      "windows-1252" ≠ "replacement") ∧
    aliasIndex (stringsToLower sampleCaseTable "windows-1252") = "windows-1252" ∧
    encodingsIndex "windows-1252" = some ⟨.Windows1252, "windows-1252"⟩ ∧
    (⟨.Windows1252, "windows-1252"⟩ : Descriptor).name = "windows-1252" ∧
    ConvertToUTF8String sampleCaseTable sampleDecoders "windows-1252" [0x41] =
      (if "windows-1252" = "utf-8" then ([0x41], none)
        else decodeWith sampleDecoders ⟨.Windows1252, "windows-1252"⟩ [0x41]) :=
  ⟨⟨by decide, by decide⟩,
    canonical_idempotence sampleCaseTable sampleDecoders "windows-1252"
      ⟨.Windows1252, "windows-1252"⟩ [0x41] (by decide) (by decide)⟩

/-- C8: every value of the alias table is a key of the descriptor table, and for
any label the lookup `encodings[encodingAliases[lower(label)]]` finds a
descriptor exactly when the lower-cased label is an alias key. -/
theorem alias_table_invariant :
    (∀ kv ∈ encodingAliases, kv.2 ∈ encodings.map Prod.fst) ∧
    (∀ (tbl : CaseTable) (label : String),
      (encodingsIndex (aliasIndex (stringsToLower tbl label))).isSome = true ↔
        stringsToLower tbl label ∈ encodingAliases.map Prod.fst) := by
  refine ⟨?_, fun tbl label => encodingsIndex_alias_isSome _⟩
  intro kv hkv
  obtain ⟨item, hitem⟩ := Option.isSome_iff_exists.mp (aliases_values_known kv hkv)
  exact List.mem_map.mpr ⟨(kv.2, item), encodingsIndex_mem hitem, rfl⟩

/-- C9: for every label for which `ConvertToUTF8String` selects a descriptor,
either directly under a canonical name other than `utf-8` or through the salvage
step, and every byte sequence: when draining the decoder reports no error the
function returns the whole output and no error, and when it reports an error the
function returns the empty text with exactly that error, whatever output had been
read. -/
theorem decoding_all_or_nothing (tbl : CaseTable) (dec : Decoders) (label : String)
    (item : Descriptor) (b : List Byte)
    (h : (aliasIndex (stringsToLower tbl label) ≠ "utf-8" ∧
          encodingsIndex (aliasIndex (stringsToLower tbl label)) = some item) ∨
        (encodingsIndex (aliasIndex (stringsToLower tbl label)) = none ∧
          ((stringsToLower tbl (beforeFirstEq label) = "charset" ∨
            stringsToLower tbl (beforeFirstEq label) = "iso") ∧ '=' ∈ label.data) ∧
          encodingsIndex (aliasIndex (stringsToLower tbl (secondPiece label))) = some item)) :
    (∀ out, dec item.e b = (out, none) →
      ConvertToUTF8String tbl dec label b = (out, none)) ∧
    (∀ out err, dec item.e b = (out, some err) →
      ConvertToUTF8String tbl dec label b = ([], some (.transform err))) := by
  have hres : ConvertToUTF8String tbl dec label b = decodeWith dec item b := by
    rcases h with ⟨hne, hi⟩ | ⟨hm, hc, hi⟩
    · exact convert_hit tbl dec label b item hne hi
    · rw [convert_miss tbl dec label b hm, if_pos hc, hi]
  rw [hres]
  constructor
  · intro out ho
    simp [decodeWith, ho]
  · intro out err ho
    simp [decodeWith, ho]

/-- C9 at the label `latin1` and the bytes `41 E9`, on which the sample decoder
has read `41` when it reports its error. -/
theorem decoding_all_or_nothing_witness :
    ((aliasIndex (stringsToLower sampleCaseTable "latin1") ≠ "utf-8" ∧
        encodingsIndex (aliasIndex (stringsToLower sampleCaseTable "latin1")) =
          some ⟨.Windows1252, "windows-1252"⟩) ∧
      sampleDecoders .Windows1252 [0x41, 0xE9] = ([0x41], some "invalid input")) ∧
    ConvertToUTF8String sampleCaseTable sampleDecoders "latin1" [0x41, 0xE9] =
      ([], some (.transform "invalid input")) :=
  ⟨⟨⟨by decide, by decide⟩, by decide⟩,
    (decoding_all_or_nothing sampleCaseTable sampleDecoders "latin1"
      ⟨.Windows1252, "windows-1252"⟩ [0x41, 0xE9] (Or.inl ⟨by decide, by decide⟩)).2
      [0x41] "invalid input" (by decide)⟩

/-! ## Lemmas on the backtracking run -/

theorem run_rune_cons (p : Char → Bool) (is : List Inst) (o : List (List Char))
    (caps : List String) (c : Char) (cs : List Char) :
    run (.rune p :: is) o caps (c :: cs) = if p c then run is o caps cs else none := rfl

theorem run_rune_nil (p : Char → Bool) (is : List Inst) (o : List (List Char))
    (caps : List String) : run (.rune p :: is) o caps [] = none := rfl

theorem runStar_stop {α : Type} (p : Char → Bool) (k : List Char → Option α) (c : Char)
    (cs : List Char) (h : p c = false) : runStar p k (c :: cs) = k (c :: cs) := by
  simp [runStar, h]

theorem runStar_step {α : Type} (p : Char → Bool) (k : List Char → Option α) (c : Char)
    (cs : List Char) (h : p c = true) :
    runStar p k (c :: cs) = (runStar p k cs).or (k (c :: cs)) := by
  simp [runStar, h]

theorem runStar_pick {α : Type} (p : Char → Bool) (k : List Char → Option α) (r : α)
    (ys : List Char) (h : runStar p k ys = some r) :
    ∀ xs : List Char, (∀ c ∈ xs, p c = true) → runStar p k (xs ++ ys) = some r
  | [], _ => h
  | x :: xs, hx => by
    rw [List.cons_append, runStar_step p k x _ (hx x (by simp)),
      runStar_pick p k r ys h xs (fun c hc => hx c (List.mem_cons_of_mem _ hc))]
    rfl

/-! ## Facts about the rune tests -/

theorem charsetClass_not_space (c : Char) (h : charsetClass c = true) : perlSpace c = false := by
  by_contra hs
  have hs' : perlSpace c = true := by simpa using hs
  simp only [perlSpace, Bool.or_eq_true, beq_iff_eq] at hs'
  rcases hs' with (((rfl | rfl) | rfl) | rfl) | rfl <;> exact absurd h (by decide)

theorem charsetClass_ne_quote (c : Char) (h : charsetClass c = true) : c ≠ '"' := by
  rintro rfl; exact absurd h (by decide)

theorem charsetClass_ne_eq (c : Char) (h : charsetClass c = true) : c ≠ '=' := by
  rintro rfl; exact absurd h (by decide)

theorem litFold_quote (r : Char) : litFold '"' r = (r == '"') := by
  have h1 : '"'.toUpper = '"' := by decide
  have h2 : '"'.toLower = '"' := by decide
  simp [litFold, h1, h2]

theorem litFold_eq_sign (r : Char) : litFold '=' r = (r == '=') := by
  have h1 : '='.toUpper = '=' := by decide
  have h2 : '='.toLower = '=' := by decide
  simp [litFold, h1, h2]

theorem litFold_lt_sign (r : Char) : litFold '<' r = (r == '<') := by
  have h1 : '<'.toUpper = '<' := by decide
  have h2 : '<'.toLower = '<' := by decide
  simp [litFold, h1, h2]

/-- A rune that matches a folded lower-case letter is neither a line feed nor `=`
nor `<`. -/
theorem litFold_letter (c r : Char) (hc : c ∈ ['m', 'e', 't', 'a', 'c', 'h', 'r', 's'])
    (h : litFold c r = true) : r ≠ '\n' ∧ r ≠ '=' ∧ r ≠ '<' := by
  refine ⟨?_, ?_, ?_⟩ <;>
  · rintro rfl
    simp only [List.mem_cons, List.mem_singleton, List.not_mem_nil, or_false] at hc
    rcases hc with rfl | rfl | rfl | rfl | rfl | rfl | rfl | rfl <;> exact absurd h (by decide)

/-! ## The value part of the expression -/

theorem take_append_sub (v t : List Char) : (v ++ t).take ((v ++ t).length - t.length) = v := by
  simp

/-- On a non-empty run `v` of class runes closed by a double quote, the value part
captures `v` and stops after the quote. -/
theorem run_valueProg (o : List (List Char)) (caps : List String) (v tail : List Char)
    (hne : v ≠ []) (hv : ∀ c ∈ v, charsetClass c = true) :
    run valueProg o caps (v ++ '"' :: tail) = some (caps ++ [⟨v⟩], tail) := by
  obtain ⟨v0, v', rfl⟩ := List.exists_cons_of_ne_nil hne
  have h0 : charsetClass v0 = true := hv v0 (by simp)
  have hq : charsetClass '"' = false := by decide
  have hqs : perlSpace '"' = false := by decide
  have hfinal : runStar charsetClass
      (run [.capClose, .star perlSpace, .rune (litFold '"')]
        ((v0 :: v' ++ '"' :: tail) :: o) caps) ('"' :: tail) = some (caps ++ [⟨v0 :: v'⟩], tail) := by
    rw [runStar_stop _ _ _ _ hq]
    show run [.star perlSpace, .rune (litFold '"')] o
      (caps ++ [⟨(v0 :: v' ++ '"' :: tail).take
        ((v0 :: v' ++ '"' :: tail).length - ('"' :: tail).length)⟩]) ('"' :: tail) = _
    rw [take_append_sub]
    show runStar perlSpace (run [.rune (litFold '"')] o (caps ++ [⟨v0 :: v'⟩])) ('"' :: tail) = _
    rw [runStar_stop _ _ _ _ hqs, run_rune_cons, if_pos (by decide)]
    rfl
  show runStar perlSpace (run [.capOpen "charset", .plus charsetClass, .capClose,
    .star perlSpace, .rune (litFold '"')] o caps) (v0 :: (v' ++ '"' :: tail)) = _
  rw [runStar_stop _ _ _ _ (charsetClass_not_space v0 h0)]
  show (if charsetClass v0 = true then
      runStar charsetClass (run [.capClose, .star perlSpace, .rune (litFold '"')]
        ((v0 :: v' ++ '"' :: tail) :: o) caps) (v' ++ '"' :: tail)
    else none) = _
  rw [if_pos h0]
  exact runStar_pick _ _ _ _ hfinal v' (fun c hc => hv c (List.mem_cons_of_mem _ hc))

/-- The attribute part on `charset="`, a value and the closing quote. -/
theorem run_attrProg (o : List (List Char)) (caps : List String) (v tail : List Char)
    (hne : v ≠ []) (hv : ∀ c ∈ v, charsetClass c = true) :
    run attrProg o caps
        ('c' :: 'h' :: 'a' :: 'r' :: 's' :: 'e' :: 't' :: '=' :: '"' :: (v ++ '"' :: tail)) =
      some (caps ++ [⟨v⟩], tail) := by
  show run ([.rune (litFold 'c'), .rune (litFold 'h'), .rune (litFold 'a'),
    .rune (litFold 'r'), .rune (litFold 's'), .rune (litFold 'e'), .rune (litFold 't'),
    .rune (litFold '='), .quest (litFold '"')] ++ valueProg) o caps _ = _
  simp only [List.cons_append, List.nil_append, run_rune_cons]
  rw [if_pos (by decide), if_pos (by decide), if_pos (by decide), if_pos (by decide),
    if_pos (by decide), if_pos (by decide), if_pos (by decide), if_pos (by decide)]
  show ((if litFold '"' '"' = true then run valueProg o caps (v ++ '"' :: tail) else none).or
    (run valueProg o caps ('"' :: (v ++ '"' :: tail)))) = _
  rw [if_pos (by decide), run_valueProg o caps v tail hne hv]
  rfl

/-! ## Where the expression cannot match -/

theorem run_attrProg_head (o : List (List Char)) (caps : List String) (a : Char)
    (r : List Char) (h : litFold 'c' a = false) : run attrProg o caps (a :: r) = none := by
  show run (.rune (litFold 'c') :: _) o caps (a :: r) = none
  rw [run_rune_cons, h]
  rfl

/-- The attribute part needs `=` on the line where it starts. -/
theorem run_attrProg_none (o : List (List Char)) (caps : List String) (s : List Char)
    (h : '=' ∉ s.takeWhile (· != '\n')) : run attrProg o caps s = none := by
  rcases s with _ | ⟨a0, _ | ⟨a1, _ | ⟨a2, _ | ⟨a3, _ | ⟨a4, _ | ⟨a5, _ | ⟨a6, _ | ⟨a7, r⟩⟩⟩⟩⟩⟩⟩⟩
  all_goals
    simp only [attrProg, List.cons_append, List.nil_append, run_rune_cons, run_rune_nil]
  all_goals try (split_ifs <;> rfl)
  split_ifs with h0 h1 h2 h3 h4 h5 h6 h7
  all_goals try rfl
  exfalso
  have n0 := (litFold_letter 'c' a0 (by simp) h0).1
  have n1 := (litFold_letter 'h' a1 (by simp) h1).1
  have n2 := (litFold_letter 'a' a2 (by simp) h2).1
  have n3 := (litFold_letter 'r' a3 (by simp) h3).1
  have n4 := (litFold_letter 's' a4 (by simp) h4).1
  have n5 := (litFold_letter 'e' a5 (by simp) h5).1
  have n6 := (litFold_letter 't' a6 (by simp) h6).1
  have e7 : a7 = '=' := by simpa [litFold_eq_sign] using h7
  apply h
  subst e7
  simp [List.takeWhile_cons, n0, n1, n2, n3, n4, n5, n6]

/-- The greedy `.*` followed by the attribute part finds nothing on a line
without `=`. -/
theorem runStar_attrProg_none (o : List (List Char)) (caps : List String) :
    ∀ s : List Char, '=' ∉ s.takeWhile (· != '\n') →
      runStar anyNotNL (run attrProg o caps) s = none
  | [], _ => by
    rw [runStar]
    exact run_attrProg_none o caps [] (by simp)
  | c :: cs, h => by
    by_cases hc : c = '\n'
    · rw [runStar_stop _ _ _ _ (by simp [anyNotNL, hc])]
      exact run_attrProg_none _ _ _ h
    · have hany : anyNotNL c = true := by simp [anyNotNL, hc]
      have hcs : '=' ∉ cs.takeWhile (· != '\n') := by
        intro m
        apply h
        have : (c != '\n') = true := by simpa using hc
        rw [List.takeWhile_cons, this]
        exact List.mem_cons_of_mem _ m
      rw [runStar_step _ _ _ _ hany, run_attrProg_none _ _ _ h,
        runStar_attrProg_none o caps cs hcs]
      rfl

theorem mem_takeWhile_append (p : Char → Bool) (x : Char) (b : List Char) :
    ∀ a : List Char, x ∈ (a ++ b).takeWhile p → x ∈ a ∨ x ∈ b.takeWhile p
  | [], h => Or.inr h
  | c :: cs, h => by
    rw [List.cons_append, List.takeWhile_cons] at h
    split at h
    · rcases List.mem_cons.mp h with e | m
      · exact Or.inl (by simp [e])
      · rcases mem_takeWhile_append p x b cs m with m' | m'
        · exact Or.inl (List.mem_cons_of_mem _ m')
        · exact Or.inr m'
    · simp at h

theorem run_charsetProg_none (o : List (List Char)) (caps : List String) (s : List Char)
    (h : startsMeta s = false) : run charsetProg o caps s = none := by
  rcases s with _ | ⟨a0, _ | ⟨a1, _ | ⟨a2, _ | ⟨a3, _ | ⟨a4, r⟩⟩⟩⟩⟩
  all_goals
    simp only [charsetProg, List.cons_append, List.nil_append, run_rune_cons, run_rune_nil]
  all_goals try (split_ifs <;> rfl)
  split_ifs with h0 h1 h2 h3 h4
  all_goals try rfl
  simp [startsMeta, foldedStart, h0, h1, h2, h3, h4] at h

/-- Text without `<meta` put before a `<` has no `<meta` that begins in it. -/
theorem startsMeta_append (t r : List Char) (hne : t ≠ []) (h : startsMeta t = false) :
    startsMeta (t ++ '<' :: r) = false := by
  have hm : litFold 'm' '<' = false := by decide
  have he : litFold 'e' '<' = false := by decide
  have ht : litFold 't' '<' = false := by decide
  have ha : litFold 'a' '<' = false := by decide
  rcases t with _ | ⟨a0, _ | ⟨a1, _ | ⟨a2, _ | ⟨a3, _ | ⟨a4, t'⟩⟩⟩⟩⟩
  · exact absurd rfl hne
  · simp [startsMeta, foldedStart, hm]
  · simp [startsMeta, foldedStart, he]
  · simp [startsMeta, foldedStart, ht]
  · simp [startsMeta, foldedStart, ha]
  · simpa [startsMeta, foldedStart] using h

/-- The search skips text without `<meta`. -/
theorem execute_skip (r : List Char) :
    ∀ pre : List Char, containsMeta pre = false →
      (execute ⟨charsetProg⟩ (pre ++ '<' :: r)).map (·.groups) =
        (execute ⟨charsetProg⟩ ('<' :: r)).map (·.groups)
  | [], _ => rfl
  | c :: cs, h => by
    simp only [containsMeta, Bool.or_eq_false_iff] at h
    have hs := startsMeta_append (c :: cs) r (by simp) h.1
    rw [List.cons_append] at hs ⊢
    rw [execute, run_charsetProg_none _ _ _ hs, ← execute_skip r cs h.2]
    cases execute ⟨charsetProg⟩ (cs ++ '<' :: r) <;> rfl

/-- The first entry of the match list is the leftmost match. -/
theorem allMatches_of_execute (re : Regexp) (fuel n : Nat) (s : List Char) (m : Submatch)
    (h : execute re s = some m) :
    ∃ later, allMatches re (fuel + 1) (n + 1) s false = m.groups :: later := by
  rw [allMatches, if_neg (Nat.succ_ne_zero n), h]
  by_cases hw : m.start = 0 ∧ m.width = 0
  · simp only [hw, and_self, if_true, Bool.false_eq_true, if_false]
    exact ⟨_, rfl⟩
  · simp only [hw, if_false]
    exact ⟨_, rfl⟩

theorem allMatches_of_no_match (re : Regexp) (fuel n : Nat) (s : List Char)
    (adjacent : Bool) (h : execute re s = none) : allMatches re fuel n s adjacent = [] := by
  cases fuel with
  | zero => rfl
  | succ fuel =>
    rw [allMatches, h]
    split <;> rfl

/-- What the sniffer returns once the leftmost match is known to have the two
entries `whole` and `v`. -/
theorem sniff_of_execute (st : Option Regexp) (hst : st = none ∨ st = some ⟨charsetProg⟩)
    (html : String) (whole v : String)
    (h : (execute ⟨charsetProg⟩ html.data).map (·.groups) = some [whole, v]) :
    charsetFromHTMLString st html = ((v, none), some ⟨charsetProg⟩) := by
  cases hm : execute ⟨charsetProg⟩ html.data with
  | none => rw [hm] at h; simp at h
  | some m =>
    rw [hm] at h
    simp only [Option.map_some', Option.some.injEq] at h
    obtain ⟨later, hl⟩ :=
      allMatches_of_execute ⟨charsetProg⟩ (html.data.length + 1) html.data.length html.data m hm
    rw [h] at hl
    have hf : FindAllStringSubmatch ⟨charsetProg⟩ html (-1) = [whole, v] :: later := by
      unfold FindAllStringSubmatch
      simpa using hl
    rcases hst with rfl | rfl
    · show (match FindAllStringSubmatch ⟨charsetProg⟩ html (-1) with
        | r2 :: _ => _
        | [] => _) = _
      rw [hf]
      rfl
    · show (match FindAllStringSubmatch ⟨charsetProg⟩ html (-1) with
        | r2 :: _ => _
        | [] => _) = _
      rw [hf]
      rfl

theorem sniff_of_no_match (st : Option Regexp) (hst : st = none ∨ st = some ⟨charsetProg⟩)
    (html : String) (h : execute ⟨charsetProg⟩ html.data = none) :
    charsetFromHTMLString st html = (("", some errParsingCharset), some ⟨charsetProg⟩) := by
  have hf : FindAllStringSubmatch ⟨charsetProg⟩ html (-1) = [] := by
    unfold FindAllStringSubmatch
    exact allMatches_of_no_match _ _ _ _ _ h
  rcases hst with rfl | rfl
  · show (match FindAllStringSubmatch ⟨charsetProg⟩ html (-1) with
      | r2 :: _ => _
      | [] => _) = _
    rw [hf]
  · show (match FindAllStringSubmatch ⟨charsetProg⟩ html (-1) with
      | r2 :: _ => _
      | [] => _) = _
    rw [hf]

/-- On `<meta`, text without a line feed, `charset="`, a value and its closing
quote, with no `=` on the rest of the line, the expression matches from the
`<meta` and captures that value: the greedy `.*` settles on the last place of
the line where the attribute part matches. -/
theorem run_charsetProg_decl (mid v tail : List Char) (hmid : '\n' ∉ mid) (hne : v ≠ [])
    (hv : ∀ c ∈ v, charsetClass c = true) (htail : '=' ∉ tail.takeWhile (· != '\n')) :
    run charsetProg [] []
        ('<' :: 'm' :: 'e' :: 't' :: 'a' ::
          (mid ++ 'c' :: 'h' :: 'a' :: 'r' :: 's' :: 'e' :: 't' :: '=' :: '"' ::
            (v ++ '"' :: tail))) =
      some ([⟨v⟩], tail) := by
  have hline : '=' ∉ (v ++ '"' :: tail).takeWhile (· != '\n') := by
    intro m
    rcases mem_takeWhile_append _ _ _ v m with m' | m'
    · exact charsetClass_ne_eq '=' (hv '=' m') rfl
    · have hq : (('"' : Char) != '\n') = true := by decide
      rw [List.takeWhile_cons, hq] at m'
      rcases List.mem_cons.mp m' with e | m''
      · exact absurd e (by decide)
      · exact htail m''
  have hlater : runStar anyNotNL (run attrProg [] [])
      ('h' :: 'a' :: 'r' :: 's' :: 'e' :: 't' :: '=' :: '"' :: (v ++ '"' :: tail)) = none := by
    rw [runStar_step _ _ _ _ (by decide), run_attrProg_head _ _ _ _ (by decide),
      runStar_step _ _ _ _ (by decide), run_attrProg_head _ _ _ _ (by decide),
      runStar_step _ _ _ _ (by decide), run_attrProg_head _ _ _ _ (by decide),
      runStar_step _ _ _ _ (by decide), run_attrProg_head _ _ _ _ (by decide),
      runStar_step _ _ _ _ (by decide), run_attrProg_head _ _ _ _ (by decide),
      runStar_step _ _ _ _ (by decide), run_attrProg_head _ _ _ _ (by decide),
      runStar_step _ _ _ _ (by decide), run_attrProg_head _ _ _ _ (by decide),
      runStar_step _ _ _ _ (by decide), run_attrProg_head _ _ _ _ (by decide),
      runStar_attrProg_none [] [] _ hline]
    rfl
  have hhere : runStar anyNotNL (run attrProg [] [])
      ('c' :: 'h' :: 'a' :: 'r' :: 's' :: 'e' :: 't' :: '=' :: '"' :: (v ++ '"' :: tail)) =
      some ([⟨v⟩], tail) := by
    rw [runStar_step _ _ _ _ (by decide), hlater, run_attrProg [] [] v tail hne hv]
    rfl
  show run ([.rune (litFold '<'), .rune (litFold 'm'), .rune (litFold 'e'),
    .rune (litFold 't'), .rune (litFold 'a'), .star anyNotNL] ++ attrProg) [] [] _ = _
  simp only [List.cons_append, List.nil_append, run_rune_cons]
  rw [if_pos (by decide), if_pos (by decide), if_pos (by decide), if_pos (by decide),
    if_pos (by decide)]
  show runStar anyNotNL (run attrProg [] []) _ = _
  refine runStar_pick _ _ _ _ hhere mid ?_
  intro c hc
  have : c ≠ '\n' := fun e => hmid (e ▸ hc)
  simp [anyNotNL, this]

theorem execute_decl (pre mid v tail : List Char) (hpre : containsMeta pre = false)
    (hmid : '\n' ∉ mid) (hne : v ≠ []) (hv : ∀ c ∈ v, charsetClass c = true)
    (htail : '=' ∉ tail.takeWhile (· != '\n')) :
    ∃ whole,
      (execute ⟨charsetProg⟩
        (pre ++ '<' :: 'm' :: 'e' :: 't' :: 'a' ::
          (mid ++ 'c' :: 'h' :: 'a' :: 'r' :: 's' :: 'e' :: 't' :: '=' :: '"' ::
            (v ++ '"' :: tail)))).map (·.groups) = some [whole, ⟨v⟩] := by
  rw [execute_skip _ pre hpre, execute, run_charsetProg_decl mid v tail hmid hne hv htail]
  exact ⟨_, rfl⟩

/-! ## The sniffer -/

theorem charsetClass_eq (r : Char) :
    charsetClass r = (asciiValueRune r || r == kelvinSign || r == longS) := rfl

theorem charsetClass_of_ascii (r : Char) (h : asciiValueRune r = true) :
    charsetClass r = true := by
  rw [charsetClass_eq, h]; rfl

theorem perlSpace_not_class (c : Char) (h : perlSpace c = true) : charsetClass c = false := by
  cases hc : charsetClass c with
  | false => rfl
  | true => rw [charsetClass_not_space c hc] at h; exact absurd h (by simp)

/-! ## What a match looks like -/

/-- A successful greedy repetition splits the input into a run of accepted runes
and the input on which the continuation succeeded. -/
theorem runStar_some {α : Type} (p : Char → Bool) (k : List Char → Option α) (r : α) :
    ∀ s : List Char, runStar p k s = some r →
      ∃ xs ys, s = xs ++ ys ∧ (∀ c ∈ xs, p c = true) ∧ k ys = some r
  | [], h => ⟨[], [], rfl, by simp, h⟩
  | c :: cs, h => by
    by_cases hp : p c = true
    · rw [runStar_step p k c cs hp] at h
      cases hr : runStar p k cs with
      | some r' =>
        rw [hr] at h
        have e : r' = r := by simpa using h
        obtain ⟨xs, ys, hs, hx, hk⟩ := runStar_some p k r cs (e ▸ hr)
        refine ⟨c :: xs, ys, by rw [hs]; rfl, ?_, hk⟩
        intro d hd
        rcases List.mem_cons.mp hd with rfl | hd
        · exact hp
        · exact hx d hd
      | none =>
        rw [hr] at h
        exact ⟨[], c :: cs, rfl, by simp, by simpa using h⟩
    · have hp' : p c = false := by simpa using hp
      rw [runStar_stop p k c cs hp'] at h
      exact ⟨[], c :: cs, rfl, by simp, h⟩

theorem run_rune_some (p : Char → Bool) (is : List Inst) (o : List (List Char))
    (caps : List String) (s : List Char) (r : List String × List Char)
    (h : run (.rune p :: is) o caps s = some r) :
    ∃ c cs, s = c :: cs ∧ p c = true ∧ run is o caps cs = some r := by
  cases s with
  | nil => rw [run_rune_nil] at h; exact absurd h (by simp)
  | cons c cs =>
    rw [run_rune_cons] at h
    by_cases hp : p c = true
    · rw [if_pos hp] at h; exact ⟨c, cs, rfl, hp, h⟩
    · rw [if_neg hp] at h; exact absurd h (by simp)

/-- A match of the value part: optional space, a non-empty run `v` of class
runes that is captured, then a rune outside the class, with a double quote at or
after it. -/
theorem run_valueProg_some (o : List (List Char)) (caps : List String) (s : List Char)
    (r : List String × List Char) (h : run valueProg o caps s = some r) :
    ∃ sp v y after, s = sp ++ (v ++ y :: after) ∧ (∀ c ∈ sp, perlSpace c = true) ∧
      v ≠ [] ∧ (∀ c ∈ v, charsetClass c = true) ∧ charsetClass y = false ∧
      '"' ∈ y :: after ∧ r.1 = caps ++ [⟨v⟩] := by
  have h1 : runStar perlSpace (run [.capOpen "charset", .plus charsetClass, .capClose,
      .star perlSpace, .rune (litFold '"')] o caps) s = some r := h
  obtain ⟨sp, s1, rfl, hsp, h2⟩ := runStar_some _ _ _ _ h1
  cases s1 with
  | nil => exact absurd h2 (by simp [run])
  | cons v0 s1' =>
    have h3 : (if charsetClass v0 = true then
        runStar charsetClass (run [.capClose, .star perlSpace, .rune (litFold '"')]
          ((v0 :: s1') :: o) caps) s1'
      else none) = some r := h2
    by_cases h0 : charsetClass v0 = true
    · rw [if_pos h0] at h3
      obtain ⟨v', s2, rfl, hv', h4⟩ := runStar_some _ _ _ _ h3
      have h5 : runStar perlSpace (run [.rune (litFold '"')] o
          (caps ++ [⟨(v0 :: (v' ++ s2)).take ((v0 :: (v' ++ s2)).length - s2.length)⟩]))
          s2 = some r := h4
      have ht : (v0 :: (v' ++ s2)).take ((v0 :: (v' ++ s2)).length - s2.length) = v0 :: v' := by
        have := take_append_sub (v0 :: v') s2
        simpa using this
      rw [ht] at h5
      obtain ⟨sp2, s3, rfl, hsp2, h6⟩ := runStar_some _ _ _ _ h5
      obtain ⟨q, rest, rfl, hq, h7⟩ := run_rune_some _ _ _ _ _ _ h6
      have eq : q = '"' := by simpa [litFold_quote] using hq
      subst eq
      have hr : r.1 = caps ++ [⟨v0 :: v'⟩] := by
        have : some (caps ++ [(⟨v0 :: v'⟩ : String)], rest) = some r := h7
        rw [← Option.some.inj this]
      have hvall : ∀ c ∈ v0 :: v', charsetClass c = true := by
        intro c hc
        rcases List.mem_cons.mp hc with rfl | hc
        · exact h0
        · exact hv' c hc
      cases sp2 with
      | nil =>
        exact ⟨sp, v0 :: v', '"', rest, by simp, hsp, by simp, hvall, by decide, by simp, hr⟩
      | cons z sp2' =>
        refine ⟨sp, v0 :: v', z, sp2' ++ '"' :: rest, by simp, hsp, by simp, hvall,
          perlSpace_not_class z (hsp2 z (by simp)), by simp, hr⟩
    · rw [if_neg h0] at h3
      exact absurd h3 (by simp)

/-- A rune put before a run of space leaves a rune outside the class right at
the end. -/
theorem before_value (front : List Char) (x : Char) (sp : List Char) (hx : charsetClass x = false)
    (hsp : ∀ c ∈ sp, perlSpace c = true) :
    ∃ before z, front ++ x :: sp = before ++ [z] ∧ charsetClass z = false := by
  rcases List.eq_nil_or_concat sp with rfl | ⟨sp', z, rfl⟩
  · exact ⟨front, x, rfl, hx⟩
  · refine ⟨front ++ x :: sp', z, by simp, perlSpace_not_class z (hsp z (by simp))⟩

/-- A match of the attribute part holds a captured non-empty run of class runes
with a rune outside the class on either side, and a double quote. -/
theorem run_attrProg_some (o : List (List Char)) (caps : List String) (s : List Char)
    (r : List String × List Char) (h : run attrProg o caps s = some r) :
    ∃ before x v y after, s = before ++ x :: (v ++ y :: after) ∧ charsetClass x = false ∧
      v ≠ [] ∧ (∀ c ∈ v, charsetClass c = true) ∧ charsetClass y = false ∧
      '"' ∈ y :: after ∧ r.1 = caps ++ [⟨v⟩] := by
  have h0 : run ([.rune (litFold 'c'), .rune (litFold 'h'), .rune (litFold 'a'),
    .rune (litFold 'r'), .rune (litFold 's'), .rune (litFold 'e'), .rune (litFold 't'),
    .rune (litFold '='), .quest (litFold '"')] ++ valueProg) o caps s = some r := h
  simp only [List.cons_append, List.nil_append] at h0
  obtain ⟨a0, s0, rfl, -, h0⟩ := run_rune_some _ _ _ _ _ _ h0
  obtain ⟨a1, s1, rfl, -, h0⟩ := run_rune_some _ _ _ _ _ _ h0
  obtain ⟨a2, s2, rfl, -, h0⟩ := run_rune_some _ _ _ _ _ _ h0
  obtain ⟨a3, s3, rfl, -, h0⟩ := run_rune_some _ _ _ _ _ _ h0
  obtain ⟨a4, s4, rfl, -, h0⟩ := run_rune_some _ _ _ _ _ _ h0
  obtain ⟨a5, s5, rfl, -, h0⟩ := run_rune_some _ _ _ _ _ _ h0
  obtain ⟨a6, s6, rfl, -, h0⟩ := run_rune_some _ _ _ _ _ _ h0
  obtain ⟨a7, s7, rfl, h7, h0⟩ := run_rune_some _ _ _ _ _ _ h0
  have e7 : a7 = '=' := by simpa [litFold_eq_sign] using h7
  subst e7
  have hq : ((match s7 with
      | c :: cs => if litFold '"' c = true then run valueProg o caps cs else none
      | [] => none).or (run valueProg o caps s7)) = some r := h0
  have hcases : (∃ cs, s7 = '"' :: cs ∧ run valueProg o caps cs = some r) ∨
      run valueProg o caps s7 = some r := by
    cases s7 with
    | nil => right; simpa using hq
    | cons c cs =>
      by_cases hc : litFold '"' c = true
      · have ec : c = '"' := by simpa [litFold_quote] using hc
        subst ec
        simp only [hc, if_true] at hq
        cases hv : run valueProg o caps cs with
        | some r' =>
          rw [hv] at hq
          have e : r' = r := by simpa using hq
          left
          exact ⟨cs, rfl, by rw [hv, e]⟩
        | none =>
          rw [hv] at hq
          right
          simpa using hq
      · simp only [hc, if_false] at hq
        right
        simpa using hq
  rcases hcases with ⟨cs, rfl, hv⟩ | hv
  · obtain ⟨sp, v, y, after, rfl, hsp, hne, hvall, hy, hmem, hr⟩ :=
      run_valueProg_some o caps cs r hv
    obtain ⟨before, z, hb, hz⟩ :=
      before_value [a0, a1, a2, a3, a4, a5, a6, '='] '"' sp (by decide) hsp
    refine ⟨before, z, v, y, after, ?_, hz, hne, hvall, hy, hmem, hr⟩
    have : a0 :: a1 :: a2 :: a3 :: a4 :: a5 :: a6 :: '=' :: '"' :: (sp ++ (v ++ y :: after)) =
        ([a0, a1, a2, a3, a4, a5, a6, '='] ++ '"' :: sp) ++ (v ++ y :: after) := by simp
    rw [this, hb]
    simp
  · obtain ⟨sp, v, y, after, rfl, hsp, hne, hvall, hy, hmem, hr⟩ :=
      run_valueProg_some o caps s7 r hv
    obtain ⟨before, z, hb, hz⟩ :=
      before_value [a0, a1, a2, a3, a4, a5, a6] '=' sp (by decide) hsp
    refine ⟨before, z, v, y, after, ?_, hz, hne, hvall, hy, hmem, hr⟩
    have : a0 :: a1 :: a2 :: a3 :: a4 :: a5 :: a6 :: '=' :: (sp ++ (v ++ y :: after)) =
        ([a0, a1, a2, a3, a4, a5, a6] ++ '=' :: sp) ++ (v ++ y :: after) := by simp
    rw [this, hb]
    simp

/-- A match of the whole expression holds a captured non-empty run of class
runes with a rune outside the class on either side, and a double quote. -/
theorem run_charsetProg_some (s : List Char) (r : List String × List Char)
    (h : run charsetProg [] [] s = some r) :
    ∃ before x v y after, s = before ++ x :: (v ++ y :: after) ∧ charsetClass x = false ∧
      v ≠ [] ∧ (∀ c ∈ v, charsetClass c = true) ∧ charsetClass y = false ∧
      '"' ∈ y :: after ∧ r.1 = [⟨v⟩] := by
  have h0 : run ([.rune (litFold '<'), .rune (litFold 'm'), .rune (litFold 'e'),
    .rune (litFold 't'), .rune (litFold 'a'), .star anyNotNL] ++ attrProg) [] [] s = some r := h
  simp only [List.cons_append, List.nil_append] at h0
  obtain ⟨a0, s0, rfl, -, h0⟩ := run_rune_some _ _ _ _ _ _ h0
  obtain ⟨a1, s1, rfl, -, h0⟩ := run_rune_some _ _ _ _ _ _ h0
  obtain ⟨a2, s2, rfl, -, h0⟩ := run_rune_some _ _ _ _ _ _ h0
  obtain ⟨a3, s3, rfl, -, h0⟩ := run_rune_some _ _ _ _ _ _ h0
  obtain ⟨a4, s4, rfl, -, h0⟩ := run_rune_some _ _ _ _ _ _ h0
  have h1 : runStar anyNotNL (run attrProg [] []) s4 = some r := h0
  obtain ⟨xs, ys, rfl, -, h2⟩ := runStar_some _ _ _ _ h1
  obtain ⟨before, x, v, y, after, rfl, hx, hne, hv, hy, hmem, hr⟩ :=
    run_attrProg_some [] [] ys r h2
  exact ⟨a0 :: a1 :: a2 :: a3 :: a4 :: (xs ++ before), x, v, y, after, by simp, hx, hne, hv,
    hy, hmem, by simpa using hr⟩

/-- The leftmost match is a match of the expression on some tail of the input. -/
theorem execute_some (re : Regexp) :
    ∀ (s : List Char) (m : Submatch), execute re s = some m →
      ∃ pre t r whole, s = pre ++ t ∧ run re.prog [] [] t = some r ∧ m.groups = whole :: r.1
  | [], m, h => by
    rw [execute] at h
    cases hr : run re.prog [] [] [] with
    | none => rw [hr] at h; exact absurd h (by simp)
    | some r =>
      rw [hr] at h
      simp only [Option.some.injEq] at h
      exact ⟨[], [], r, "", rfl, hr, by rw [← h]⟩
  | c :: cs, m, h => by
    rw [execute] at h
    cases hr : run re.prog [] [] (c :: cs) with
    | some r =>
      rw [hr] at h
      simp only [Option.some.injEq] at h
      exact ⟨[], c :: cs, r, _, rfl, hr, by rw [← h]⟩
    | none =>
      rw [hr] at h
      cases he : execute re cs with
      | none => rw [he] at h; exact absurd h (by simp)
      | some m' =>
        rw [he] at h
        simp only [Option.some.injEq] at h
        obtain ⟨pre, t, r, whole, hs, hrun, hg⟩ := execute_some re cs m' he
        exact ⟨c :: pre, t, r, whole, by rw [hs]; rfl, hrun, by rw [← h]; exact hg⟩

/-- Without `<meta` in the text there is no match. -/
theorem execute_none_of_no_meta :
    ∀ s : List Char, containsMeta s = false → execute ⟨charsetProg⟩ s = none
  | [], _ => by
    rw [execute, run_charsetProg_none [] [] [] rfl]
  | c :: cs, h => by
    simp only [containsMeta, Bool.or_eq_false_iff] at h
    rw [execute, run_charsetProg_none [] [] _ h.1, execute_none_of_no_meta cs h.2]

/-- Without a double quote in the text there is no match. -/
theorem execute_none_of_no_quote (s : List Char) (h : '"' ∉ s) :
    execute ⟨charsetProg⟩ s = none := by
  cases he : execute ⟨charsetProg⟩ s with
  | none => rfl
  | some m =>
    exfalso
    obtain ⟨pre, t, r, whole, rfl, hrun, -⟩ := execute_some _ s m he
    obtain ⟨before, x, v, y, after, rfl, -, -, -, -, hmem, -⟩ := run_charsetProg_some t r hrun
    exact h (List.mem_append_right _ (List.mem_append_right _
      (List.mem_cons_of_mem _ (List.mem_append_right _ hmem))))

/-- A label returned without error is the capture of a match on some tail of the
text. -/
theorem sniff_some (st : Option Regexp) (hst : st = none ∨ st = some ⟨charsetProg⟩)
    (html label : String) (h : (charsetFromHTMLString st html).1 = (label, none)) :
    ∃ pre before x y after,
      html.data = pre ++ (before ++ x :: (label.data ++ y :: after)) ∧
      charsetClass x = false ∧ label.data ≠ [] ∧ (∀ c ∈ label.data, charsetClass c = true) ∧
      charsetClass y = false := by
  cases he : execute ⟨charsetProg⟩ html.data with
  | none =>
    rw [sniff_of_no_match st hst html he] at h
    simp at h
  | some m =>
    obtain ⟨pre, t, r, whole, hs, hrun, hg⟩ := execute_some _ _ m he
    obtain ⟨before, x, v, y, after, rfl, hx, hne, hv, hy, -, hr⟩ :=
      run_charsetProg_some t r hrun
    have hm : (execute ⟨charsetProg⟩ html.data).map (·.groups) = some [whole, ⟨v⟩] := by
      rw [he, Option.map_some', hg, hr]
    rw [sniff_of_execute st hst html whole ⟨v⟩ hm] at h
    have hl : label = ⟨v⟩ := by
      have := congrArg Prod.fst h
      exact this.symm
    subst hl
    exact ⟨pre, before, x, y, after, hs, hx, hne, hv, hy⟩

theorem errParsingCharset_ne (l : String) : errParsingCharset ≠ unsupportedCharset l := by
  intro h
  unfold errParsingCharset unsupportedCharset at h
  injection h with h
  have hd := congrArg String.data h
  rw [String.data_append] at hd
  have := congrArg List.head? hd
  simp at this

/-! ## The unquoted form of the attribute -/

/-- The attribute part on `charset=`, a value and the closing quote, with no
quote before the value. -/
theorem run_attrProg_bare (o : List (List Char)) (caps : List String) (v tail : List Char)
    (hne : v ≠ []) (hv : ∀ c ∈ v, charsetClass c = true) :
    run attrProg o caps
        ('c' :: 'h' :: 'a' :: 'r' :: 's' :: 'e' :: 't' :: '=' :: (v ++ '"' :: tail)) =
      some (caps ++ [⟨v⟩], tail) := by
  have hval := run_valueProg o caps v tail hne hv
  obtain ⟨v0, v', rfl⟩ := List.exists_cons_of_ne_nil hne
  have h0 : litFold '"' v0 = false := by
    rw [litFold_quote]
    simpa using charsetClass_ne_quote v0 (hv v0 (by simp))
  show run ([.rune (litFold 'c'), .rune (litFold 'h'), .rune (litFold 'a'),
    .rune (litFold 'r'), .rune (litFold 's'), .rune (litFold 'e'), .rune (litFold 't'),
    .rune (litFold '='), .quest (litFold '"')] ++ valueProg) o caps _ = _
  simp only [List.cons_append, List.nil_append, run_rune_cons]
  rw [if_pos (by decide), if_pos (by decide), if_pos (by decide), if_pos (by decide),
    if_pos (by decide), if_pos (by decide), if_pos (by decide), if_pos (by decide)]
  show ((if litFold '"' v0 = true then run valueProg o caps (v' ++ '"' :: tail) else none).or
    (run valueProg o caps (v0 :: (v' ++ '"' :: tail)))) = _
  rw [h0]
  simp only [Bool.false_eq_true, if_false, Option.none_or]
  exact hval

theorem run_charsetProg_bare (mid v tail : List Char) (hmid : '\n' ∉ mid) (hne : v ≠ [])
    (hv : ∀ c ∈ v, charsetClass c = true) (htail : '=' ∉ tail.takeWhile (· != '\n')) :
    run charsetProg [] []
        ('<' :: 'm' :: 'e' :: 't' :: 'a' ::
          (mid ++ 'c' :: 'h' :: 'a' :: 'r' :: 's' :: 'e' :: 't' :: '=' :: (v ++ '"' :: tail))) =
      some ([⟨v⟩], tail) := by
  have hline : '=' ∉ (v ++ '"' :: tail).takeWhile (· != '\n') := by
    intro m
    rcases mem_takeWhile_append _ _ _ v m with m' | m'
    · exact charsetClass_ne_eq '=' (hv '=' m') rfl
    · have hq : (('"' : Char) != '\n') = true := by decide
      rw [List.takeWhile_cons, hq] at m'
      rcases List.mem_cons.mp m' with e | m''
      · exact absurd e (by decide)
      · exact htail m''
  have hlater : runStar anyNotNL (run attrProg [] [])
      ('h' :: 'a' :: 'r' :: 's' :: 'e' :: 't' :: '=' :: (v ++ '"' :: tail)) = none := by
    rw [runStar_step _ _ _ _ (by decide), run_attrProg_head _ _ _ _ (by decide),
      runStar_step _ _ _ _ (by decide), run_attrProg_head _ _ _ _ (by decide),
      runStar_step _ _ _ _ (by decide), run_attrProg_head _ _ _ _ (by decide),
      runStar_step _ _ _ _ (by decide), run_attrProg_head _ _ _ _ (by decide),
      runStar_step _ _ _ _ (by decide), run_attrProg_head _ _ _ _ (by decide),
      runStar_step _ _ _ _ (by decide), run_attrProg_head _ _ _ _ (by decide),
      runStar_step _ _ _ _ (by decide), run_attrProg_head _ _ _ _ (by decide),
      runStar_attrProg_none [] [] _ hline]
    rfl
  have hhere : runStar anyNotNL (run attrProg [] [])
      ('c' :: 'h' :: 'a' :: 'r' :: 's' :: 'e' :: 't' :: '=' :: (v ++ '"' :: tail)) =
      some ([⟨v⟩], tail) := by
    rw [runStar_step _ _ _ _ (by decide), hlater, run_attrProg_bare [] [] v tail hne hv]
    rfl
  show run ([.rune (litFold '<'), .rune (litFold 'm'), .rune (litFold 'e'),
    .rune (litFold 't'), .rune (litFold 'a'), .star anyNotNL] ++ attrProg) [] [] _ = _
  simp only [List.cons_append, List.nil_append, run_rune_cons]
  rw [if_pos (by decide), if_pos (by decide), if_pos (by decide), if_pos (by decide),
    if_pos (by decide)]
  show runStar anyNotNL (run attrProg [] []) _ = _
  refine runStar_pick _ _ _ _ hhere mid ?_
  intro c hc
  have : c ≠ '\n' := fun e => hmid (e ▸ hc)
  simp [anyNotNL, this]

theorem execute_bare (pre mid v tail : List Char) (hpre : containsMeta pre = false)
    (hmid : '\n' ∉ mid) (hne : v ≠ []) (hv : ∀ c ∈ v, charsetClass c = true)
    (htail : '=' ∉ tail.takeWhile (· != '\n')) :
    ∃ whole,
      (execute ⟨charsetProg⟩
        (pre ++ '<' :: 'm' :: 'e' :: 't' :: 'a' ::
          (mid ++ 'c' :: 'h' :: 'a' :: 'r' :: 's' :: 'e' :: 't' :: '=' ::
            (v ++ '"' :: tail)))).map (·.groups) = some [whole, ⟨v⟩] := by
  rw [execute_skip _ pre hpre, execute, run_charsetProg_bare mid v tail hmid hne hv htail]
  exact ⟨_, rfl⟩

theorem class_of_ascii_all (v : String) (hv : v.data.all asciiValueRune = true) :
    ∀ c ∈ v.data, charsetClass c = true :=
  fun c hc => charsetClass_of_ascii c (List.all_eq_true.mp hv c hc)

/-! ## Sniffing a declaration -/

/-- C11: for every non-empty value `v` of ASCII letters, digits, `_`, `.`, `:` and
`-`, the sniffer returns `v` itself, in its own letter case and with no error,
on `<html><head><meta charset="v"></head></html>`. -/
theorem html5_meta_form (st : Option Regexp) (hst : st = none ∨ st = some ⟨charsetProg⟩)
    (v : String) (hne : v ≠ "") (hv : v.data.all asciiValueRune = true) :
    (charsetFromHTMLString st
      ("<html><head><meta charset=\"" ++ v ++ "\"></head></html>")).1 = (v, none) := by
  have hne' : v.data ≠ [] := fun e => hne (String.ext e)
  obtain ⟨whole, hw⟩ := execute_decl "<html><head>".data " ".data v.data
    "></head></html>".data (by decide) (by decide) hne' (class_of_ascii_all v hv) (by decide)
  have hd : ("<html><head><meta charset=\"" ++ v ++ "\"></head></html>").data =
      "<html><head>".data ++ '<' :: 'm' :: 'e' :: 't' :: 'a' ::
        (" ".data ++ 'c' :: 'h' :: 'a' :: 'r' :: 's' :: 'e' :: 't' :: '=' :: '"' ::
          (v.data ++ '"' :: "></head></html>".data)) := by
    simp [String.data_append]
  rw [sniff_of_execute st hst _ whole v (by rw [hd]; exact hw)]

/-- C11 at the value `iso-8859-1`. -/
theorem html5_meta_form_witness :
    ("iso-8859-1" ≠ "" ∧ "iso-8859-1".data.all asciiValueRune = true) ∧
    (charsetFromHTMLString none
      ("<html><head><meta charset=\"" ++ "iso-8859-1" ++ "\"></head></html>")).1 =
      ("iso-8859-1", none) :=
  ⟨⟨by decide, by decide⟩, html5_meta_form none (Or.inl rfl) "iso-8859-1" (by decide) (by decide)⟩

/-- C12: for every non-empty value `v` of ASCII letters, digits, `_`, `.`, `:` and
`-`, the sniffer returns `v` itself, in its own letter case and with no error,
on the `http-equiv` form
`<html><head><meta http-equiv="Content-Type" content="text/html; charset=v"></head></html>`. -/
theorem http_equiv_form (st : Option Regexp) (hst : st = none ∨ st = some ⟨charsetProg⟩)
    (v : String) (hne : v ≠ "") (hv : v.data.all asciiValueRune = true) :
    (charsetFromHTMLString st
      ("<html><head><meta http-equiv=\"Content-Type\" content=\"text/html; charset=" ++ v ++
        "\"></head></html>")).1 = (v, none) := by
  have hne' : v.data ≠ [] := fun e => hne (String.ext e)
  obtain ⟨whole, hw⟩ := execute_bare "<html><head>".data
    " http-equiv=\"Content-Type\" content=\"text/html; ".data v.data
    "></head></html>".data (by decide) (by decide) hne' (class_of_ascii_all v hv) (by decide)
  have hd : ("<html><head><meta http-equiv=\"Content-Type\" content=\"text/html; charset=" ++
        v ++ "\"></head></html>").data =
      "<html><head>".data ++ '<' :: 'm' :: 'e' :: 't' :: 'a' ::
        (" http-equiv=\"Content-Type\" content=\"text/html; ".data ++
          'c' :: 'h' :: 'a' :: 'r' :: 's' :: 'e' :: 't' :: '=' ::
            (v.data ++ '"' :: "></head></html>".data)) := by
    simp [String.data_append]
  rw [sniff_of_execute st hst _ whole v (by rw [hd]; exact hw)]

/-- C12 at the value `UTF-8`, returned in upper case. -/
theorem http_equiv_form_witness :
    ("UTF-8" ≠ "" ∧ "UTF-8".data.all asciiValueRune = true) ∧
    (charsetFromHTMLString none
      ("<html><head><meta http-equiv=\"Content-Type\" content=\"text/html; charset=" ++
        "UTF-8" ++ "\"></head></html>")).1 = ("UTF-8", none) :=
  ⟨⟨by decide, by decide⟩, http_equiv_form none (Or.inl rfl) "UTF-8" (by decide) (by decide)⟩

/-- C13: on every HTML text without `<meta`, in any letter case, the sniffer
returns the empty label and the error `errParsingCharset`, and that error is
different from every unsupported-charset error of `ConvertToUTF8String`. -/
theorem no_declaration_found (st : Option Regexp)
    (hst : st = none ∨ st = some ⟨charsetProg⟩) (html : String)
    (h : containsMeta html.data = false) :
    (charsetFromHTMLString st html).1 = ("", some errParsingCharset) ∧
    ∀ label, errParsingCharset ≠ unsupportedCharset label := by
  rw [sniff_of_no_match st hst html (execute_none_of_no_meta html.data h)]
  exact ⟨rfl, errParsingCharset_ne⟩

/-- C13 at the text `<html></html>`. -/
theorem no_declaration_found_witness :
    containsMeta "<html></html>".data = false ∧
    (charsetFromHTMLString none "<html></html>").1 = ("", some errParsingCharset) ∧
    ∀ label, errParsingCharset ≠ unsupportedCharset label :=
  ⟨by decide, no_declaration_found none (Or.inl rfl) "<html></html>" (by decide)⟩

/-- C17, as stated with the listed set read as the bracket class, fails: on
`<meta charset="K">` with the Kelvin sign U+212A as value the sniffer returns that
sign, which is no ASCII letter, digit or one of `_`, `.`, `:`, `-`. -/
theorem sniffed_label_counterexample :
    (charsetFromHTMLString none "<meta charset=\"\u212A\">").1 = ("\u212A", none) ∧
    "\u212A".data.all asciiValueRune = false := by
  decide

/-- C17, amended: whenever the sniffer returns a label without error, the label is
not empty, each of its runes is an ASCII letter, a digit, one of `_`, `.`, `:`,
`-`, or one of the two letters U+212A and U+017F that `(?i)` adds to the class,
and the label stands in the text between two runes that are outside that class,
the two added letters included. -/
theorem sniffed_label_shape (st : Option Regexp)
    (hst : st = none ∨ st = some ⟨charsetProg⟩) (html label : String)
    (h : (charsetFromHTMLString st html).1 = (label, none)) :
    label ≠ "" ∧
    (∀ c ∈ label.data, asciiValueRune c = true ∨ c = kelvinSign ∨ c = longS) ∧
    ∃ before x y after, html.data = before ++ x :: (label.data ++ y :: after) ∧
      charsetClass x = false ∧ charsetClass y = false := by
  obtain ⟨pre, before, x, y, after, hs, hx, hne, hv, hy⟩ := sniff_some st hst html label h
  refine ⟨?_, ?_, pre ++ before, x, y, after, by rw [hs]; simp, hx, hy⟩
  · intro e
    exact hne (by rw [e])
  · intro c hc
    have := hv c hc
    rw [charsetClass_eq] at this
    simpa [Bool.or_eq_true, or_assoc] using this

/-- C17 amended, at `<meta charset="utf-8">`, where the label `utf-8` stands between two
double quotes. -/
theorem sniffed_label_shape_witness :
    (charsetFromHTMLString none "<meta charset=\"utf-8\">").1 = ("utf-8", none) ∧
    ("utf-8" ≠ "" ∧
      (∀ c ∈ "utf-8".data, asciiValueRune c = true ∨ c = kelvinSign ∨ c = longS) ∧
      ∃ before x y after,
        "<meta charset=\"utf-8\">".data = before ++ x :: ("utf-8".data ++ y :: after) ∧
        charsetClass x = false ∧ charsetClass y = false) :=
  ⟨by decide,
    sniffed_label_shape none (Or.inl rfl) "<meta charset=\"utf-8\">" "utf-8" (by decide)⟩

/-- C18: with the package variable `charsetRegexp` as explicit state, compiling
the expression yields the program `charsetProg`; a call that starts with the
state absent ends with the state holding it; a call that starts with the state
populated leaves the state as it was; and label and error are the same whether
the call started with the state absent or holding the compiled expression. -/
theorem pattern_built_once (html : String) :
    regexpCompile charsetExpr = .ok ⟨charsetProg⟩ ∧
    (charsetFromHTMLString none html).2 = some ⟨charsetProg⟩ ∧
    (∀ re : Regexp, (charsetFromHTMLString (some re) html).2 = some re) ∧
    (charsetFromHTMLString none html).1 =
      (charsetFromHTMLString (some ⟨charsetProg⟩) html).1 := by
  have hstate : ∀ re : Regexp, (charsetFromHTMLString (some re) html).2 = some re := by
    intro re
    unfold charsetFromHTMLString
    dsimp only
    split <;> rfl
  have hsame : charsetFromHTMLString none html =
      charsetFromHTMLString (some ⟨charsetProg⟩) html := rfl
  exact ⟨rfl, by rw [hsame]; exact hstate _, hstate, by rw [hsame]⟩

/-- C19: on every HTML text without a double quote the sniffer returns the empty
label and the error `errParsingCharset`. -/
theorem closing_quote_required (st : Option Regexp)
    (hst : st = none ∨ st = some ⟨charsetProg⟩) (html : String) (h : '"' ∉ html.data) :
    (charsetFromHTMLString st html).1 = ("", some errParsingCharset) := by
  rw [sniff_of_no_match st hst html (execute_none_of_no_quote html.data h)]

/-- C19 at the unquoted form `<meta charset=utf-8>` and at the single-quoted
form. -/
theorem closing_quote_required_witness :
    ('"' ∉ "<meta charset=utf-8>".data ∧ '"' ∉ "<meta charset='utf-8'>".data) ∧
    (charsetFromHTMLString none "<meta charset=utf-8>").1 = ("", some errParsingCharset) ∧
    (charsetFromHTMLString none "<meta charset='utf-8'>").1 =
      ("", some errParsingCharset) :=
  ⟨⟨by decide, by decide⟩,
    closing_quote_required none (Or.inl rfl) "<meta charset=utf-8>" (by decide),
    closing_quote_required none (Or.inl rfl) "<meta charset='utf-8'>" (by decide)⟩

/-! ## Resolution of particular labels -/

set_option maxRecDepth 100000 in
theorem replacement_keys :
    ∀ kv ∈ encodingAliases, kv.2 = "replacement" →
      kv.1 ∈ ["iso-2022-kr", "csiso2022kr", "iso-2022-cn", "iso-2022-cn-ext"] := by decide!

set_option maxRecDepth 100000 in
theorem replacement_keys_mem :
    ∀ a ∈ ["iso-2022-kr", "csiso2022kr", "iso-2022-cn", "iso-2022-cn-ext"],
      (a, "replacement") ∈ encodingAliases := by decide!

theorem aliasIndex_prefixes :
    aliasIndex "charset" = "" ∧ aliasIndex "iso" = "" := by decide

/-- C14: each of the labels `iso-2022-kr`, `csiso2022kr`, `iso-2022-cn` and
`iso-2022-cn-ext`, in any letter case, makes `ConvertToUTF8String` run the decoder
of the descriptor `replacement`, which is `encoding.Replacement`, so the call
never ends in the unsupported-charset error; and no other alias key maps to
`replacement`. -/
theorem replacement_routing (tbl : CaseTable) (dec : Decoders) (a a' : String)
    (b : List Byte)
    (ha : a ∈ ["iso-2022-kr", "csiso2022kr", "iso-2022-cn", "iso-2022-cn-ext"])
    (hv : caseVariant a'.data a.data = true) :
    encodingsIndex "replacement" = some ⟨.Replacement, "replacement"⟩ ∧
    ConvertToUTF8String tbl dec a' b = decodeWith dec ⟨.Replacement, "replacement"⟩ b ∧
    (∀ l, (ConvertToUTF8String tbl dec a' b).2 ≠ some (unsupportedCharset l)) ∧
    ∀ kv ∈ encodingAliases, kv.2 = "replacement" →
      kv.1 ∈ ["iso-2022-kr", "csiso2022kr", "iso-2022-cn", "iso-2022-cn-ext"] := by
  have hmem := replacement_keys_mem a ha
  have hl : stringsToLower tbl a' = a := stringsToLower_variant tbl a' hmem hv
  have hal : aliasIndex (stringsToLower tbl a') = "replacement" := by
    rw [hl]; exact aliasIndex_of_mem hmem
  have hitem : encodingsIndex "replacement" = some ⟨.Replacement, "replacement"⟩ := by decide
  have hres : ConvertToUTF8String tbl dec a' b =
      decodeWith dec ⟨.Replacement, "replacement"⟩ b :=
    convert_hit tbl dec a' b _ (by rw [hal]; decide) (by rw [hal]; exact hitem)
  refine ⟨hitem, hres, ?_, replacement_keys⟩
  intro l
  rw [hres]
  exact decodeWith_error dec _ b l

/-- C14 at the label `ISO-2022-KR`. -/
theorem replacement_routing_witness :
    ("iso-2022-kr" ∈ ["iso-2022-kr", "csiso2022kr", "iso-2022-cn", "iso-2022-cn-ext"] ∧
      caseVariant "ISO-2022-KR".data "iso-2022-kr".data = true) ∧
    encodingsIndex "replacement" = some ⟨.Replacement, "replacement"⟩ ∧
    ConvertToUTF8String sampleCaseTable sampleDecoders "ISO-2022-KR" [0x41] =
      decodeWith sampleDecoders ⟨.Replacement, "replacement"⟩ [0x41] ∧
    (∀ l, (ConvertToUTF8String sampleCaseTable sampleDecoders "ISO-2022-KR" [0x41]).2 ≠
      some (unsupportedCharset l)) ∧
    ∀ kv ∈ encodingAliases, kv.2 = "replacement" →
      kv.1 ∈ ["iso-2022-kr", "csiso2022kr", "iso-2022-cn", "iso-2022-cn-ext"] :=
  ⟨⟨by decide, by decide⟩,
    replacement_routing sampleCaseTable sampleDecoders "iso-2022-kr" "ISO-2022-KR" [0x41]
      (by decide) (by decide)⟩

/-- C15: with the Windows-1252 decoder modelled as the code page,
`ConvertToUTF8String` on the bytes `[0xE9]` returns the UTF-8 bytes `C3 A9`, which
encode the single code point U+00E9, and no error, for the label `windows-1252`
and for every other alias key of `windows-1252`, whatever the decoders of the
other encodings do. -/
theorem windows1252_decoding (tbl : CaseTable) (others : Decoders) (a : String)
    (hmem : (a, "windows-1252") ∈ encodingAliases) :
    ConvertToUTF8String tbl (libraryDecoders others) a [0xE9] = ([0xC3, 0xA9], none) ∧
    utf8Encode 0xE9 = [0xC3, 0xA9] := by
  have hl : stringsToLower tbl a = a := stringsToLower_variant tbl a hmem (caseVariant_refl _)
  have hal : aliasIndex (stringsToLower tbl a) = "windows-1252" := by
    rw [hl]; exact aliasIndex_of_mem hmem
  have hitem : encodingsIndex "windows-1252" = some ⟨.Windows1252, "windows-1252"⟩ := by decide
  have hmodel : decodeWindows1252 [0xE9] = ([0xC3, 0xA9], none) := by decide
  have hdec : libraryDecoders others .Windows1252 [0xE9] = ([0xC3, 0xA9], none) := hmodel
  rw [convert_hit tbl (libraryDecoders others) a [0xE9] _ (by rw [hal]; decide)
    (by rw [hal]; exact hitem)]
  exact ⟨by simp [decodeWith, hdec], by decide⟩

set_option maxRecDepth 100000 in
/-- C15 at the labels `windows-1252`, `iso-8859-1`, `latin1`, `us-ascii` and
`cp1252`. -/
theorem windows1252_decoding_witness :
    (("windows-1252", "windows-1252") ∈ encodingAliases ∧
      ("iso-8859-1", "windows-1252") ∈ encodingAliases ∧
      ("latin1", "windows-1252") ∈ encodingAliases ∧
      ("us-ascii", "windows-1252") ∈ encodingAliases ∧
      ("cp1252", "windows-1252") ∈ encodingAliases) ∧
    ConvertToUTF8String sampleCaseTable (libraryDecoders sampleDecoders) "windows-1252"
      [0xE9] = ([0xC3, 0xA9], none) ∧
    ConvertToUTF8String sampleCaseTable (libraryDecoders sampleDecoders) "iso-8859-1"
      [0xE9] = ([0xC3, 0xA9], none) ∧
    ConvertToUTF8String sampleCaseTable (libraryDecoders sampleDecoders) "latin1"
      [0xE9] = ([0xC3, 0xA9], none) ∧
    ConvertToUTF8String sampleCaseTable (libraryDecoders sampleDecoders) "us-ascii"
      [0xE9] = ([0xC3, 0xA9], none) ∧
    ConvertToUTF8String sampleCaseTable (libraryDecoders sampleDecoders) "cp1252"
      [0xE9] = ([0xC3, 0xA9], none) :=
  ⟨⟨by decide!, by decide!, by decide!, by decide!, by decide!⟩,
    (windows1252_decoding sampleCaseTable sampleDecoders "windows-1252" (by decide!)).1,
    (windows1252_decoding sampleCaseTable sampleDecoders "iso-8859-1" (by decide!)).1,
    (windows1252_decoding sampleCaseTable sampleDecoders "latin1" (by decide!)).1,
    (windows1252_decoding sampleCaseTable sampleDecoders "us-ascii" (by decide!)).1,
    (windows1252_decoding sampleCaseTable sampleDecoders "cp1252" (by decide!)).1⟩

/-- C16: for prefixes `p1` and `p2` that each lower-case to `charset` or `iso` and
any label `x`, known alias or not, `ConvertToUTF8String` on
`p1 ++ "=" ++ p2 ++ "=" ++ x` returns the empty text and an unsupported-charset
error: the one retry looks up `p2`, which is no alias, and nothing is retried
after that. -/
theorem one_salvage_attempt (tbl : CaseTable) (dec : Decoders) (p1 p2 x : String)
    (b : List Byte)
    (h1 : stringsToLower tbl p1 = "charset" ∨ stringsToLower tbl p1 = "iso")
    (h2 : stringsToLower tbl p2 = "charset" ∨ stringsToLower tbl p2 = "iso") :
    ConvertToUTF8String tbl dec (p1 ++ "=" ++ p2 ++ "=" ++ x) b =
      ([], some (unsupportedCharset p2)) := by
  have e : p1 ++ "=" ++ p2 ++ "=" ++ x = p1 ++ "=" ++ (p2 ++ "=" ++ x) := by
    simp [String.append_assoc]
  have hp1 : '=' ∉ p1.data := by
    apply no_eq_of_lower tbl
    rcases h1 with h | h <;> rw [h] <;> decide
  have hp2 : '=' ∉ p2.data := by
    apply no_eq_of_lower tbl
    rcases h2 with h | h <;> rw [h] <;> decide
  have hmiss : encodingsIndex (aliasIndex
      (stringsToLower tbl (p1 ++ "=" ++ (p2 ++ "=" ++ x)))) = none := by
    rw [aliasIndex_of_not_key (not_key_of_eq_mem (eq_mem_lower tbl _ (eq_mem_join p1 _)))]
    exact encodingsIndex_empty
  have hsec : secondPiece (p1 ++ "=" ++ (p2 ++ "=" ++ x)) = p2 := by
    unfold secondPiece
    rw [afterFirstEq_join p1 _ hp1, beforeFirstEq_join p2 x hp2]
  have hlook : encodingsIndex (aliasIndex (stringsToLower tbl p2)) = none := by
    rcases h2 with h | h <;> rw [h]
    · rw [aliasIndex_prefixes.1]; exact encodingsIndex_empty
    · rw [aliasIndex_prefixes.2]; exact encodingsIndex_empty
  rw [e, convert_miss tbl dec _ b hmiss, beforeFirstEq_join p1 _ hp1, hsec,
    if_pos ⟨h1, eq_mem_join p1 _⟩, hlook]

/-- C16 at `charset=charset=utf-8`, where `utf-8` is a known alias. -/
theorem one_salvage_attempt_witness :
    ((stringsToLower sampleCaseTable "charset" = "charset" ∨
        stringsToLower sampleCaseTable "charset" = "iso") ∧
      aliasIndex "utf-8" = "utf-8") ∧
    ConvertToUTF8String sampleCaseTable sampleDecoders
        ("charset" ++ "=" ++ "charset" ++ "=" ++ "utf-8") [0x41] =
      ([], some (unsupportedCharset "charset")) :=
  ⟨⟨by decide, by decide⟩,
    one_salvage_attempt sampleCaseTable sampleDecoders "charset" "charset" "utf-8" [0x41]
      (by decide) (by decide)⟩

/-! ## The last attribute of a line -/

theorem isSome_false {α : Type} (x : Option α) : x.isSome = false ↔ x = none := by
  cases x <;> simp

/-- Text without `<meta` put before a `<` holds no start of a match. -/
theorem noMatchBefore_of_no_meta (r : List Char) :
    ∀ pre : List Char, containsMeta pre = false → noMatchBefore pre ('<' :: r) = true
  | [], _ => rfl
  | c :: cs, h => by
    simp only [containsMeta, Bool.or_eq_false_iff] at h
    have hs := startsMeta_append (c :: cs) r (by simp) h.1
    simp only [noMatchBefore, Bool.and_eq_true, Bool.not_eq_true', isSome_false]
    exact ⟨run_charsetProg_none _ _ _ hs, noMatchBefore_of_no_meta r cs h.2⟩

/-- A line without `=` holds no attribute. -/
theorem attrOnLine_of_no_eq :
    ∀ s : List Char, '=' ∉ s.takeWhile (· != '\n') → attrOnLine s = false
  | [], _ => by
    simp [attrOnLine, run_attrProg_none [] [] [] (by simp)]
  | c :: cs, h => by
    have hk := run_attrProg_none [] [] (c :: cs) h
    simp only [attrOnLine, hk, Option.isSome_none, Bool.false_or, Bool.and_eq_false_iff]
    by_cases hc : c = '\n'
    · left; simp [hc]
    · right
      apply attrOnLine_of_no_eq cs
      intro m
      apply h
      have : (c != '\n') = true := by simpa using hc
      rw [List.takeWhile_cons, this]
      exact List.mem_cons_of_mem _ m

end Enmime
